import Mathlib

/-!
# choose.cpp: a single-keystroke choice prompt

A shallow embedding of `src/src/choose.cpp`.

* A `char` is kept as an `Int` in the range of a signed 8-bit value (the x86-64 ABI); the
  conversion from the `int` that `std::cin.get()` returns is `toChar`.
* `<ctype.h>` is taken in the "C" locale: the program never calls `setlocale`.
* `getopt` is the C library's: the command line reaches `COpt::Analize` as the sequence of
  `(option letter, optarg)` pairs that successive `getopt` calls yield.
* The terminal, the clock and the keyboard are an explicit state `Sys`: the terminal's
  `termios`, the outcomes that successive `poll` calls will have, the readings that successive
  `GetTickCount` calls will return, and a log of the effects performed so far.
* A run that is still waiting when the supplied input is used up has exit status `none`.
* `tcsetattr` always takes effect; `tcflush`, `setbuf` and `usleep` change nothing that is
  modelled.
* The `int` arithmetic on the clock is 32-bit (`toInt32`); the counter `cur` of `KeyInOpt` is an
  unbounded integer, a command-line argument being far shorter than 2^31 characters.
-/

namespace Choose

set_option maxRecDepth 100000

/-! ## `<ctype.h>` in the "C" locale -/

/-- The C library's `isdigit`. -/
def isdigit (c : Int) : Bool := decide (48 ≤ c ∧ c ≤ 57)

/-- The C library's `isupper`. -/
def isupper (c : Int) : Bool := decide (65 ≤ c ∧ c ≤ 90)

/-- The C library's `islower`. -/
def islower (c : Int) : Bool := decide (97 ≤ c ∧ c ≤ 122)

/-- The C library's `isalnum`. -/
def isalnum (c : Int) : Bool := isdigit c || isupper c || islower c

/-- The C library's `isspace`: space, and `\t \n \v \f \r`. -/
def isspace (c : Int) : Bool := decide (c = 32 ∨ (9 ≤ c ∧ c ≤ 13))

/-- The C library's `toupper`. -/
def toupper (c : Int) : Int := if islower c then c - 32 else c

/-- The C library's `tolower`. -/
def tolower (c : Int) : Int := if isupper c then c + 32 else c

/-- The characters of a string literal, as `char` values. -/
def str (s : String) : List Int := s.toList.map (fun c => (c.toNat : Int))

/-- Conversion of an `int` to `char` (signed, 8 bits). -/
def toChar (v : Int) : Int := (v + 128) % 256 - 128

/-- Conversion of an integer to `int` (signed, 32 bits). -/
def toInt32 (v : Int) : Int := (v + 2147483648) % 4294967296 - 2147483648

/-- The C library's `LONG_MAX` (64-bit `long`). -/
def LONG_MAX : Int := 9223372036854775807

/-- Digits of `atol`, accumulated from the left; stops at the first non-digit. -/
def atolDigits : List Int → Int → Int
  | [], acc => acc
  | c :: cs, acc => if isdigit c then atolDigits cs (acc * 10 + (c - 48)) else acc

/-- The C library's `atol`: leading white space, an optional sign, decimal digits; a value out of
the range of `long` is clamped, as `strtol` does. -/
def atol (s : List Int) : Int :=
  let v : Int :=
    match s.dropWhile isspace with
    | 45 :: r => - atolDigits r 0
    | 43 :: r => atolDigits r 0
    | r => atolDigits r 0
  max (-LONG_MAX - 1) (min LONG_MAX v)

/-! ## class COpt -/

/-- The fields of `COpt`. -/
structure COpt where
  b_showHelp : Bool
  b_hideChoices : Bool
  b_noCase : Bool
  i_timeout : Int
  s_choices : List Int
  s_prompt : List Int
  c_default : Int
deriving DecidableEq, Repr

/-- The value `COpt::COpt()` constructs. -/
def COpt.new : COpt :=
  { b_showHelp := false, b_hideChoices := false, b_noCase := true, i_timeout := -1,
    s_choices := [], s_prompt := [], c_default := 0 }

/-- One result of `getopt(argc, argv, "hnsc:t:d:m:")`: the value returned (`cc`, which is `?` for
an unknown option or a missing argument) and `optarg`. -/
structure GetoptItem where
  cc : Char
  optarg : List Int
deriving DecidableEq, Repr

/-- The first `char` of a C string (the terminating NUL when it is empty). -/
def optarg0 (s : List Int) : Int := s.headD 0

/-- The test both `Analize` and `KeyInOpt` use to compare a choice `cc` with a character `c`:
`(b_noCase && toupper(cc) == toupper(c)) || (!b_noCase && cc == c)`. -/
def keyMatch (noCase : Bool) (cc c : Int) : Bool :=
  (noCase && decide (toupper cc = toupper c)) || (!noCase && decide (cc = c))

/-- The `while (bRet && (cc = getopt(...)) != -1)` loop of `COpt::Analize`: returns `bRet` and the
fields as they stand when the loop ends. -/
def getoptLoop (o : COpt) : List GetoptItem → Bool × COpt
  | [] => (true, o)
  | it :: rest =>
    if it.cc = 'c' then getoptLoop { o with s_choices := it.optarg } rest
    else if it.cc = 'd' then getoptLoop { o with c_default := optarg0 it.optarg } rest
    else if it.cc = 'h' then getoptLoop { o with b_showHelp := true } rest
    else if it.cc = 'm' then getoptLoop { o with s_prompt := it.optarg } rest
    else if it.cc = 'n' then getoptLoop { o with b_hideChoices := true } rest
    else if it.cc = 's' then getoptLoop { o with b_noCase := false } rest
    else if it.cc = 't' then
      let l := atol it.optarg
      getoptLoop { o with i_timeout := if 0 ≤ l ∧ l ≤ 9999 then l else -1 } rest
    else (false, o)

/-- The statement `if (s_choices.empty()) s_choices = "YN";` of `COpt::Analize`. -/
def defaultChoices (o : COpt) : COpt :=
  if o.s_choices.isEmpty then { o with s_choices := [89, 78] } else o

/-- The "Verification" part of `COpt::Analize`, run on the fields the option loop left. -/
def verify (o1 : COpt) : Bool × COpt :=
  let o := defaultChoices o1
  if !(o.s_choices.all (fun c => isalnum c && !isspace c)) then (false, o)
  else if o.c_default ≠ 0 ∧ !(isalnum o.c_default && !isspace o.c_default) then (false, o)
  else if o.c_default ≠ 0 ∧ !(o.s_choices.any (fun c => keyMatch o.b_noCase c o.c_default)) then
    (false, o)
  else if 0 ≤ o.i_timeout ∧ o.c_default = 0 then (false, o)
  else (true, o)

/-- `COpt::Analize`: the result and the fields afterwards. -/
def COpt.Analize (o : COpt) (args : List GetoptItem) : Bool × COpt :=
  match getoptLoop o args with
  | (false, o1) => (false, o1)
  | (true, o1) => verify o1

/-- The `for` loop of `COpt::KeyInOpt`: `cur` is incremented for each entry visited and the loop
breaks at the first entry that matches; returns `(b, cur)`. -/
def keyScan (noCase : Bool) (c : Int) : List Int → Int → Bool × Int
  | [], cur => (false, cur)
  | cc :: rest, cur =>
    if keyMatch noCase cc c then (true, cur + 1) else keyScan noCase c rest (cur + 1)

/-- `COpt::KeyInOpt`. -/
def COpt.KeyInOpt (o : COpt) (c : Int) : Int :=
  if isalnum c && !isspace c then
    let r := keyScan o.b_noCase c o.s_choices (-1)
    if !r.1 then -1 else r.2
  else -1

/-- `COpt::ShowPrompt`: the text written to `std::cerr`. -/
def promptText (o : COpt) : List Int :=
  o.s_prompt ++
    (if o.b_hideChoices then []
     else [91, o.s_choices.headD 0] ++ (o.s_choices.drop 1).flatMap (fun c => [44, c]) ++ [93, 63])

/-! ## The terminal, the keyboard and the clock -/

/-- The `struct termios` of `<termios.h>`. -/
structure termios where
  c_iflag : Nat
  c_oflag : Nat
  c_cflag : Nat
  c_lflag : Nat
  c_line : Nat
  c_cc : List Nat
  c_ispeed : Nat
  c_ospeed : Nat
deriving DecidableEq, Repr

/-- The flag `ICANON` of `<termios.h>` (Linux). -/
def ICANON : Nat := 2

/-- The flag `ECHO` of `<termios.h>` (Linux). -/
def ECHO : Nat := 8

/-- The statement `settings.c_lflag &= ~(ICANON | ECHO)` on the 32-bit `tcflag_t`. -/
def clearRaw (t : termios) : termios :=
  { t with c_lflag := t.c_lflag &&& (4294967295 - (ICANON ||| ECHO)) }

/-- The statement `settings.c_lflag |= (ICANON | ECHO)`. -/
def setCooked (t : termios) : termios :=
  { t with c_lflag := t.c_lflag ||| (ICANON ||| ECHO) }

/-- What one `poll` on standard input does: data is ready and `std::cin.get()` then returns `get`
(a byte, or `-1` at the end of the input), the wait expires, or the wait fails. -/
inductive PollOutcome where
  | ready (get : Int)
  | timeout
  | error
deriving DecidableEq, Repr

/-- The effects the program performs, in the order of the log. `kbHit timeout ret` records that a
call `CKey::kbHit(timeout)` returned `ret`. -/
inductive Effect where
  | help
  | prompt (text : List Int)
  | bell
  | clearLine
  | tcflush
  | tcsetattr (t : termios)
  | poll (timeout : Int)
  | kbHit (timeout : Int) (ret : Int)
deriving DecidableEq, Repr

/-- The world the program runs in. -/
structure Sys where
  isatty : Bool
  tcgetattrOk : Bool
  term : termios
  polls : List PollOutcome
  clock : List Nat
  log : List Effect
deriving DecidableEq, Repr

/-- Appends one effect to the log. -/
def Sys.emit (s : Sys) (e : Effect) : Sys := { s with log := s.log ++ [e] }

/-- The call `tcsetattr(STDIN_FILENO, TCSANOW, &t)`. -/
def Sys.tcsetattr (s : Sys) (t : termios) : Sys :=
  { s with term := t, log := s.log ++ [Effect.tcsetattr t] }

/-- The `char` that `_kbHit` assigns to `c` for one outcome of `poll`. -/
def keyOf : PollOutcome → Int
  | PollOutcome.ready get => toChar get
  | PollOutcome.timeout => 0
  | PollOutcome.error => 1

/-! ## class CKey -/

/-- The fields of `CKey`. -/
structure CKey where
  b_Initialized : Bool
  t_Settings : termios
deriving DecidableEq, Repr

/-- The value `CKey::CKey()` constructs. -/
def CKey.new : CKey :=
  { b_Initialized := false,
    t_Settings := { c_iflag := 0, c_oflag := 0, c_cflag := 0, c_lflag := 0, c_line := 0,
                    c_cc := [], c_ispeed := 0, c_ospeed := 0 } }

/-- `CKey::Initialise`. -/
def CKey.Initialise (k : CKey) (s : Sys) : Bool × CKey :=
  if !k.b_Initialized then
    if s.isatty then
      if s.tcgetattrOk then (true, { b_Initialized := true, t_Settings := s.term })
      else (false, { k with b_Initialized := false })
    else (false, { k with b_Initialized := false })
  else (true, k)

/-- `CKey::Finalize`. -/
def CKey.Finalize (k : CKey) (s : Sys) : CKey × Sys :=
  ({ k with b_Initialized := false }, if k.b_Initialized then s.tcsetattr k.t_Settings else s)

/-- `CKey::_kbHit`: the value returned (`none` while `poll` is still waiting because no outcome is
left), the object and the world afterwards. -/
def CKey._kbHit (k : CKey) (timeout : Int) (s : Sys) : Option Int × CKey × Sys :=
  let i := if !k.b_Initialized then k.Initialise s else (true, k)
  if !i.1 then (some 1, i.2, s)
  else
    let k1 := i.2
    let settings := clearRaw k1.t_Settings
    let s1 := ((s.emit Effect.tcflush).tcsetattr settings).emit (Effect.poll timeout)
    match s1.polls with
    | [] => (none, k1, s1)
    | p :: rest =>
      let s2 := { s1 with polls := rest }.emit Effect.tcflush
      (some (keyOf p), k1, s2.tcsetattr (setCooked settings))

/-- `CKey::kbHit`: `_kbHit` on a fresh object, which is then deleted (its destructor calls
`Finalize`). -/
def CKey.kbHit (timeout : Int) (s : Sys) : Option Int × Sys :=
  match CKey._kbHit CKey.new timeout s with
  | (none, _, s1) => (none, s1)
  | (some ret, k1, s1) => (some ret, (k1.Finalize s1).2.emit (Effect.kbHit timeout ret))

/-! ## main -/

/-- `COpt::ShowPrompt`. -/
def COpt.ShowPrompt (o : COpt) (s : Sys) : Sys := s.emit (Effect.prompt (promptText o))

/-- `COpt::Cleanup`. -/
def COpt.Cleanup (o : COpt) (s : Sys) : Sys :=
  if !o.s_prompt.isEmpty || !o.b_hideChoices then s.emit Effect.clearLine else s

/-- The `while (true)` loop of `main` without a timeout, run for at most `fuel` iterations: the
value of `nErrLevel` at the `break`, and the world. -/
def loopNoTimeout (o : COpt) : Nat → Sys → Option Int × Sys
  | 0, s => (none, s)
  | fuel + 1, s =>
    match CKey.kbHit (-1) s with
    | (none, s1) => (none, s1)
    | (some key, s1) =>
      if (33 ≤ key ∧ key ≤ 126) ∧ 0 ≤ o.KeyInOpt key then (some (o.KeyInOpt key), s1)
      else if key = 1 then (some 255, s1)
      else loopNoTimeout o fuel (s1.emit Effect.bell)

/-- The value of `static_cast<int>((t1-t0).count())`: the difference of two readings of the
64-bit unsigned millisecond counter, narrowed to `int`. -/
def elapsed (t0 t1 : Nat) : Int := toInt32 (((t1 : Int) - (t0 : Int)) % 18446744073709551616)

/-- The first statement of the body of the timeout loop, after the clock is read as `t1`: the
value given to `key`, by `kbHit` with the remaining time as its bound, or 0 without a call of
`kbHit` once the time is used up. -/
def timedKey (t0 t1 : Nat) (nTimeout : Int) (s0 : Sys) : Option Int × Sys :=
  if nTimeout ≤ elapsed t0 t1 then (some 0, s0)
  else
    let nAmount := toInt32 (nTimeout - elapsed t0 t1)
    if 0 < nAmount then CKey.kbHit nAmount s0 else (some 0, s0)

/-- The `while (true)` loop of `main` with a timeout of `nTimeout` milliseconds started at the
reading `t0`, run for at most `fuel` iterations. -/
def loopTimeout (o : COpt) (t0 : Nat) (nTimeout : Int) : Nat → Sys → Option Int × Sys
  | 0, s => (none, s)
  | fuel + 1, s =>
    match s.clock with
    | [] => (none, s)
    | t1 :: cl =>
      match timedKey t0 t1 nTimeout { s with clock := cl } with
      | (none, s1) => (none, s1)
      | (some key0, s1) =>
        if key0 = 1 then (some 255, s1)
        else
          let key := if key0 = 0 then o.c_default else key0
          if 0 ≤ o.KeyInOpt key then (some (o.KeyInOpt key), s1)
          else loopTimeout o t0 nTimeout fuel (s1.emit Effect.bell)

/-- The end of `main`: the mapping of `nErrLevel` to the value returned, and the clean-up of the
prompt line. -/
def finish (o : COpt) (nErrLevel : Int) (s : Sys) : Option Int × Sys :=
  let n := if nErrLevel < 0 then 255 else nErrLevel
  if n < 255 then (some (n + 1), o.Cleanup s) else (some n, s)

/-- The part of `main` that follows the analysis of the command line and the help. -/
def run (o : COpt) (s : Sys) : Option Int × Sys :=
  let s1 := o.ShowPrompt s
  let r : Option Int × Sys :=
    if o.i_timeout < 0 then loopNoTimeout o (s1.polls.length + 1) s1
    else
      match s1.clock with
      | [] => (none, s1)
      | t0 :: cl =>
        loopTimeout o t0 (toInt32 (o.i_timeout * 1000)) (cl.length + 1) { s1 with clock := cl }
  match r with
  | (none, s2) => (none, s2)
  | (some nErrLevel, s2) => finish o nErrLevel s2

/-- The function `main`: the value returned (`none` when the run is still waiting for input once
the supplied outcomes or clock readings are used up) and the world afterwards. -/
def main (args : List GetoptItem) (s : Sys) : Option Int × Sys :=
  match COpt.new.Analize args with
  | (false, _) => (some 255, s)
  | (true, o) => if o.b_showHelp then (some 0, s.emit Effect.help) else run o s

/-- A terminal in its usual state (canonical mode and echo on), with the given keyboard outcomes
and clock readings, and an empty log. -/
def tty (polls : List PollOutcome) (clock : List Nat) : Sys :=
  { isatty := true, tcgetattrOk := true,
    term := { c_iflag := 17664, c_oflag := 5, c_cflag := 191, c_lflag := 35387, c_line := 0,
              c_cc := [], c_ispeed := 15, c_ospeed := 15 },
    polls := polls, clock := clock, log := [] }

/-! ## Definitions used to state the properties -/

/-- The smallest index whose entry satisfies `p`, if there is one. -/
def firstIndex (p : Int → Bool) : List Int → Option Nat
  | [] => none
  | x :: xs => if p x then some 0 else (firstIndex p xs).map (· + 1)

/-- The matching rule in the words of the specification: equal after upper-casing both when
case-insensitive, equal verbatim when case-sensitive. -/
def ruleMatch (noCase : Bool) (cc c : Int) : Bool :=
  if noCase then decide (toupper cc = toupper c) else decide (cc = c)

/-- Reference definition of `KeyInOpt`, from the specification: the smallest 0-based index whose
entry matches `c` under the matching rule if `c` is alphanumeric and such an entry exists, and
`-1` otherwise. -/
def KeyInOpt_ref (noCase : Bool) (choices : List Int) (c : Int) : Int :=
  if isalnum c then
    match firstIndex (fun cc => ruleMatch noCase cc c) choices with
    | some i => (i : Int)
    | none => -1
  else -1

/-- The log entries of one `kbHit(timeout)` on a terminal whose configuration is `t`, when `poll`
has the outcome `p`. -/
def kbHitLog (timeout : Int) (t : termios) (p : PollOutcome) : List Effect :=
  [Effect.tcflush, Effect.tcsetattr (clearRaw t), Effect.poll timeout, Effect.tcflush,
   Effect.tcsetattr (setCooked (clearRaw t)), Effect.tcsetattr t, Effect.kbHit timeout (keyOf p)]

/-- The argument of the last option `cc` of the command line, if `cc` is given. -/
def lastOptarg (cc : Char) : List GetoptItem → Option (List Int)
  | [] => none
  | it :: rest =>
    match lastOptarg cc rest with
    | some a => some a
    | none => if it.cc = cc then some it.optarg else none

/-- Whether the option `cc` is given on the command line. -/
def hasOpt (cc : Char) (args : List GetoptItem) : Bool := args.any (fun it => decide (it.cc = cc))

/-- The choice string a command line asks for: the argument of its last `-c`, or "YN" when there
is none or it is empty. -/
def choicesOf (args : List GetoptItem) : List Int :=
  match lastOptarg 'c' args with
  | some (c :: cs) => c :: cs
  | _ => [89, 78]

/-- A character as the configured case rule sees it: upper-cased when case-insensitive, verbatim
when case-sensitive. -/
def caseFold (noCase : Bool) (c : Int) : Int := if noCase then toupper c else c

/-- The terminal configuration of `s1` is that of `s`, and `s1` logs no `tcsetattr` that `s` does
not. -/
def SameTerminal (s s1 : Sys) : Prop :=
  s1.term = s.term ∧ ∀ t, Effect.tcsetattr t ∈ s1.log → Effect.tcsetattr t ∈ s.log

/-- Whether a log entry records a call of `kbHit`. -/
def isKbHit : Effect → Bool
  | Effect.kbHit _ _ => true
  | _ => false

/-- The number of calls of `kbHit` that a log records. -/
def kbHitCalls (log : List Effect) : Nat := log.countP isKbHit

/-- The test at the head of the timeout loop finds the time used up at the reading `t1`: `key` is
set to 0 without a call of `kbHit`. -/
def Expired (nTimeout : Int) (t0 t1 : Nat) : Prop :=
  nTimeout ≤ elapsed t0 t1 ∨ ¬ 0 < toInt32 (nTimeout - elapsed t0 t1)

instance (nTimeout : Int) (t0 t1 : Nat) : Decidable (Expired nTimeout t0 t1) := by
  unfold Expired
  infer_instance

/-- The character the timeout loop looks up when `kbHit` has returned `key0`: the default
character for 0, else `key0` itself. -/
def withDefault (o : COpt) (key0 : Int) : Int := if key0 = 0 then o.c_default else key0

/-- The outcomes of `poll` for which `kbHit` returns the error value 1: a failed wait, and a
typed byte that is 1 as a `char`. -/
def IsErrorOutcome (p : PollOutcome) : Prop :=
  p = PollOutcome.error ∨ ∃ g, p = PollOutcome.ready g ∧ toChar g = 1

/-- The value `code` reports the choice that `key` matches: `KeyInOpt key` is an index `i` whose
entry matches `key`, and `code` is `i + 1`, within 1..N and different from 255. -/
def ReportsChoice (o : COpt) (key code : Int) : Prop :=
  ∃ i : Nat, o.KeyInOpt key = (i : Int) ∧
    (∃ x, o.s_choices[i]? = some x ∧ ruleMatch o.b_noCase x key = true) ∧
    code = (i : Int) + 1 ∧ 1 ≤ code ∧ code ≤ (o.s_choices.length : Int) ∧ code ≠ 255

/-! ## Facts about the character classes -/

theorem isalnum_not_isspace (c : Int) (h : isalnum c = true) : isspace c = false := by
  simp only [isalnum, isdigit, isupper, islower, isspace, Bool.or_eq_true, decide_eq_true_eq,
    decide_eq_false_iff_not] at *
  omega

theorem isalnum_guard (c : Int) : (isalnum c && !isspace c) = isalnum c := by
  cases h : isalnum c
  · simp
  · simp [isalnum_not_isspace c h]

theorem isalnum_range (c : Int) (h : isalnum c = true) : 48 ≤ c ∧ c ≤ 122 := by
  simp only [isalnum, isdigit, isupper, islower, Bool.or_eq_true, decide_eq_true_eq] at h
  omega

theorem keyMatch_eq_ruleMatch (noCase : Bool) (cc c : Int) :
    keyMatch noCase cc c = ruleMatch noCase cc c := by
  cases noCase <;> simp [keyMatch, ruleMatch]

/-! ## Facts about `KeyInOpt` -/

theorem firstIndex_eq_none (p : Int → Bool) (l : List Int) :
    firstIndex p l = none ↔ ∀ x ∈ l, p x = false := by
  induction l with
  | nil => simp [firstIndex]
  | cons x xs ih =>
    by_cases hx : p x = true
    · simp [firstIndex, hx]
    · simp [firstIndex, hx, ih]

theorem firstIndex_eq_some (p : Int → Bool) (l : List Int) (i : Nat) :
    firstIndex p l = some i ↔
      (∃ x, l[i]? = some x ∧ p x = true) ∧ ∀ j, j < i → ∀ y, l[j]? = some y → p y = false := by
  induction l generalizing i with
  | nil => simp [firstIndex]
  | cons x xs ih =>
    by_cases hx : p x = true
    · cases i with
      | zero => simp [firstIndex, hx]
      | succ n =>
        simp only [firstIndex, hx, if_true, Option.some.injEq]
        constructor
        · intro h; omega
        · rintro ⟨_, h⟩
          have := h 0 (by omega) x (by simp)
          simp [hx] at this
    · cases i with
      | zero => simp [firstIndex, hx]
      | succ n =>
        simp only [firstIndex, hx, Option.map_eq_some', Bool.false_eq_true, if_false]
        constructor
        · rintro ⟨a, ha, han⟩
          have han : a = n := by omega
          subst han
          obtain ⟨h1, h2⟩ := (ih a).1 ha
          refine ⟨by simpa using h1, ?_⟩
          intro j hj y hy
          cases j with
          | zero => simp at hy; subst hy; simpa using hx
          | succ m => exact h2 m (by omega) y (by simpa using hy)
        · rintro ⟨h1, h2⟩
          refine ⟨n, (ih n).2 ⟨by simpa using h1, ?_⟩, rfl⟩
          intro j hj y hy
          exact h2 (j + 1) (by omega) y (by simpa using hy)

theorem firstIndex_lt (p : Int → Bool) (l : List Int) (i : Nat) (h : firstIndex p l = some i) :
    i < l.length := by
  obtain ⟨⟨x, hx, _⟩, _⟩ := (firstIndex_eq_some p l i).1 h
  exact (List.getElem?_eq_some_iff.1 hx).1

theorem keyScan_eq (noCase : Bool) (c : Int) (l : List Int) (cur : Int) :
    keyScan noCase c l cur =
      match firstIndex (fun cc => ruleMatch noCase cc c) l with
      | some i => (true, cur + 1 + (i : Int))
      | none => (false, cur + (l.length : Int)) := by
  induction l generalizing cur with
  | nil => simp [keyScan, firstIndex]
  | cons x xs ih =>
    by_cases hx : ruleMatch noCase x c = true
    · simp [keyScan, firstIndex, keyMatch_eq_ruleMatch, hx]
    · simp only [keyScan, firstIndex, keyMatch_eq_ruleMatch, hx, Bool.false_eq_true, if_false, ih]
      cases firstIndex (fun cc => ruleMatch noCase cc c) xs with
      | none => simp; omega
      | some i => simp; omega

theorem KeyInOpt_eq (o : COpt) (c : Int) : o.KeyInOpt c = KeyInOpt_ref o.b_noCase o.s_choices c := by
  unfold COpt.KeyInOpt KeyInOpt_ref
  rw [isalnum_guard, keyScan_eq]
  cases isalnum c with
  | false => simp
  | true =>
    cases firstIndex (fun cc => ruleMatch o.b_noCase cc c) o.s_choices with
    | none => simp
    | some i => simp

theorem KeyInOpt_eq_nat (o : COpt) (c : Int) (i : Nat) :
    o.KeyInOpt c = (i : Int) ↔
      isalnum c = true ∧ firstIndex (fun cc => ruleMatch o.b_noCase cc c) o.s_choices = some i := by
  rw [KeyInOpt_eq]
  unfold KeyInOpt_ref
  cases isalnum c with
  | false => simp
  | true =>
    cases firstIndex (fun cc => ruleMatch o.b_noCase cc c) o.s_choices with
    | none => simp
    | some k => simp

theorem KeyInOpt_eq_neg (o : COpt) (c : Int) :
    o.KeyInOpt c = -1 ↔
      isalnum c = false ∨ firstIndex (fun cc => ruleMatch o.b_noCase cc c) o.s_choices = none := by
  rw [KeyInOpt_eq]
  unfold KeyInOpt_ref
  cases isalnum c with
  | false => simp
  | true =>
    cases firstIndex (fun cc => ruleMatch o.b_noCase cc c) o.s_choices with
    | none => simp
    | some k => simp

theorem KeyInOpt_cases (o : COpt) (c : Int) :
    o.KeyInOpt c = -1 ∨
      ∃ i : Nat, o.KeyInOpt c = (i : Int) ∧ i < o.s_choices.length ∧ isalnum c = true := by
  cases h : isalnum c with
  | false => left; exact (KeyInOpt_eq_neg o c).2 (Or.inl h)
  | true =>
    cases hf : firstIndex (fun cc => ruleMatch o.b_noCase cc c) o.s_choices with
    | none => left; exact (KeyInOpt_eq_neg o c).2 (Or.inr hf)
    | some i =>
      right
      exact ⟨i, (KeyInOpt_eq_nat o c i).2 ⟨h, hf⟩, firstIndex_lt _ _ _ hf, rfl⟩

/-! ## Facts about `kbHit` -/

theorem kbHit_tty (timeout : Int) (s : Sys) (p : PollOutcome) (rest : List PollOutcome)
    (h1 : s.isatty = true) (h2 : s.tcgetattrOk = true) (hp : s.polls = p :: rest) :
    CKey.kbHit timeout s =
      (some (keyOf p), { s with polls := rest, log := s.log ++ kbHitLog timeout s.term p }) := by
  simp [CKey.kbHit, CKey._kbHit, CKey.Initialise, CKey.Finalize, CKey.new, Sys.emit, Sys.tcsetattr,
    h1, h2, hp, kbHitLog]

theorem kbHit_blocked (timeout : Int) (s : Sys)
    (h1 : s.isatty = true) (h2 : s.tcgetattrOk = true) (hp : s.polls = []) :
    CKey.kbHit timeout s =
      (none, { s with term := clearRaw s.term,
                      log := s.log ++ [Effect.tcflush, Effect.tcsetattr (clearRaw s.term),
                                       Effect.poll timeout] }) := by
  simp [CKey.kbHit, CKey._kbHit, CKey.Initialise, CKey.new, Sys.emit, Sys.tcsetattr, h1, h2, hp]

theorem kbHit_notty (timeout : Int) (s : Sys) (h : s.isatty = false ∨ s.tcgetattrOk = false) :
    CKey.kbHit timeout s = (some 1, s.emit (Effect.kbHit timeout 1)) := by
  rcases h with h | h
  · simp [CKey.kbHit, CKey._kbHit, CKey.Initialise, CKey.Finalize, CKey.new, h]
  · cases h1 : s.isatty <;>
      simp [CKey.kbHit, CKey._kbHit, CKey.Initialise, CKey.Finalize, CKey.new, h, h1]

/-- C10. `COpt::KeyInOpt` equals its reference definition for every character and every choice
string: its value is the smallest 0-based index whose entry matches `c` under the matching rule
when `c` is alphanumeric and such an entry exists, and `-1` otherwise; so it is `-1` or an index
below the length of the string. With the case-sensitive choices "Yn", `y` gives `-1` and `Y`
gives `0`. -/
theorem KeyInOpt_refines_reference (o : COpt) (c : Int) :
    o.KeyInOpt c = KeyInOpt_ref o.b_noCase o.s_choices c ∧
    (o.KeyInOpt c = -1 ∨ (0 ≤ o.KeyInOpt c ∧ o.KeyInOpt c < (o.s_choices.length : Int))) ∧
    (∀ i : Nat, o.KeyInOpt c = (i : Int) ↔
      isalnum c = true ∧ (∃ x, o.s_choices[i]? = some x ∧ ruleMatch o.b_noCase x c = true) ∧
        ∀ j, j < i → ∀ y, o.s_choices[j]? = some y → ruleMatch o.b_noCase y c = false) ∧
    (o.KeyInOpt c = -1 ↔
      isalnum c = false ∨ ∀ x ∈ o.s_choices, ruleMatch o.b_noCase x c = false) ∧
    ({ COpt.new with s_choices := str "Yn", b_noCase := false } : COpt).KeyInOpt 121 = -1 ∧
    ({ COpt.new with s_choices := str "Yn", b_noCase := false } : COpt).KeyInOpt 89 = 0 := by
  refine ⟨KeyInOpt_eq o c, ?_, ?_, ?_, by decide, by decide⟩
  · rcases KeyInOpt_cases o c with h | ⟨i, hi, hlt, _⟩
    · exact Or.inl h
    · right; rw [hi]; constructor <;> omega
  · intro i
    rw [KeyInOpt_eq_nat, firstIndex_eq_some]
  · rw [KeyInOpt_eq_neg, firstIndex_eq_none]

theorem toChar_byte (c : Int) (h0 : 0 ≤ c) (h1 : c ≤ 255) :
    toChar c = if c ≤ 127 then c else c - 256 := by
  unfold toChar
  split <;> omega

theorem loopNoTimeout_succ (o : COpt) (fuel : Nat) (s s1 : Sys) (key : Int)
    (h : CKey.kbHit (-1) s = (some key, s1)) :
    loopNoTimeout o (fuel + 1) s =
      if (33 ≤ key ∧ key ≤ 126) ∧ 0 ≤ o.KeyInOpt key then (some (o.KeyInOpt key), s1)
      else if key = 1 then (some 255, s1)
      else loopNoTimeout o fuel (s1.emit Effect.bell) := by
  simp only [loopNoTimeout, h]

/-- C2. For every terminal configuration and every outcome of the wait, the configuration after
`CKey::kbHit` returns is the one it found; on a terminal, the last `tcsetattr` of the call is
`Finalize` writing the snapshot `t_Settings` that `Initialise` captured, after `_kbHit` wrote its
transient copy. On a terminal that had `ICANON` and `ECHO` cleared, `_kbHit` alone leaves a
different configuration and `kbHit` the original one. -/
theorem kbHit_restores_snapshot (s : Sys) (p : PollOutcome) (rest : List PollOutcome)
    (timeout : Int) :
    (CKey.kbHit timeout { s with polls := p :: rest }).1.isSome = true ∧
    (CKey.kbHit timeout { s with polls := p :: rest }).2.term = s.term ∧
    (CKey.kbHit timeout { s with polls := p :: rest }).2.log =
      s.log ++
        (if s.isatty && s.tcgetattrOk then
          [Effect.tcflush, Effect.tcsetattr (clearRaw (CKey.new.Initialise s).2.t_Settings),
           Effect.poll timeout, Effect.tcflush,
           Effect.tcsetattr (setCooked (clearRaw (CKey.new.Initialise s).2.t_Settings)),
           Effect.tcsetattr (CKey.new.Initialise s).2.t_Settings,
           Effect.kbHit timeout (keyOf p)]
        else [Effect.kbHit timeout 1]) ∧
    ((s.isatty && s.tcgetattrOk) = true → (CKey.new.Initialise s).2.t_Settings = s.term) ∧
    (CKey._kbHit CKey.new 0
        { tty [PollOutcome.timeout] [] with term := { (tty [] []).term with c_lflag := 0 } }).2.2.term
      ≠ { (tty [] []).term with c_lflag := 0 } ∧
    (CKey.kbHit 0
        { tty [PollOutcome.timeout] [] with term := { (tty [] []).term with c_lflag := 0 } }).2.term
      = { (tty [] []).term with c_lflag := 0 } := by
  refine ⟨?_, ?_, ?_, ?_, by decide, by decide⟩
  · cases h1 : s.isatty <;> cases h2 : s.tcgetattrOk <;>
      simp [CKey.kbHit, CKey._kbHit, CKey.Initialise, CKey.Finalize, CKey.new, Sys.emit,
        Sys.tcsetattr, h1, h2]
  · cases h1 : s.isatty <;> cases h2 : s.tcgetattrOk <;>
      simp [CKey.kbHit, CKey._kbHit, CKey.Initialise, CKey.Finalize, CKey.new, Sys.emit,
        Sys.tcsetattr, h1, h2]
  · cases h1 : s.isatty <;> cases h2 : s.tcgetattrOk <;>
      simp [CKey.kbHit, CKey._kbHit, CKey.Initialise, CKey.Finalize, CKey.new, Sys.emit,
        Sys.tcsetattr, h1, h2]
  · cases h1 : s.isatty <;> cases h2 : s.tcgetattrOk <;>
      simp [CKey.Initialise, CKey.new, h1, h2]

/-- C5, as stated, fails: a typed byte 1 (Ctrl-A) makes `kbHit` return what it returns on an error
of the wait, and `main` then returns 255; a typed byte 0 makes it return what it returns on a
timeout, and `main` then substitutes the default. -/
theorem kbHit_sentinels_collide :
    (CKey.kbHit (-1) (tty [PollOutcome.ready 1] [])).1 =
      (CKey.kbHit (-1) (tty [PollOutcome.error] [])).1 ∧
    (CKey.kbHit 5000 (tty [PollOutcome.ready 0] [])).1 =
      (CKey.kbHit 5000 (tty [PollOutcome.timeout] [])).1 ∧
    (main [] (tty [PollOutcome.ready 1] [])).1 = some 255 ∧
    (main [⟨'d', str "N"⟩, ⟨'t', str "5"⟩] (tty [PollOutcome.ready 0] [0, 10])).1 = some 2 := by
  decide

/-- C8, as stated, fails: the rejected key 27 (Escape), which is not printable, is answered with
one alert, where the claim has none. -/
theorem bell_on_control_key :
    (main [] (tty [PollOutcome.ready 27] [])).2.log.count Effect.bell = 1 ∧
    (main [] (tty [PollOutcome.ready 27] [])).1 = none := by
  decide

/-- C8, amended. In the waiting loop with no timeout, for every key value read that is not the
error sentinel 1 and does not match a choice, printable or not, the loop goes on to its next
iteration with exactly one alert added to what `kbHit` did. -/
theorem loopNoTimeout_rejected_key (o : COpt) (fuel : Nat) (s s1 : Sys) (key : Int)
    (h : CKey.kbHit (-1) s = (some key, s1)) (hk : key ≠ 1)
    (hm : ¬ ((33 ≤ key ∧ key ≤ 126) ∧ 0 ≤ o.KeyInOpt key)) :
    loopNoTimeout o (fuel + 1) s = loopNoTimeout o fuel (s1.emit Effect.bell) ∧
    (s1.emit Effect.bell).log = s1.log ++ [Effect.bell] ∧
    (s1.emit Effect.bell).polls = s1.polls ∧ (s1.emit Effect.bell).term = s1.term := by
  refine ⟨?_, rfl, rfl, rfl⟩
  rw [loopNoTimeout_succ o fuel s s1 key h, if_neg hm, if_neg hk]

theorem loopNoTimeout_rejected_key_witness :
    loopNoTimeout { COpt.new with s_choices := str "YN" } 1 (tty [PollOutcome.ready 27] []) =
      loopNoTimeout { COpt.new with s_choices := str "YN" } 0
        ((CKey.kbHit (-1) (tty [PollOutcome.ready 27] [])).2.emit Effect.bell) :=
  (loopNoTimeout_rejected_key { COpt.new with s_choices := str "YN" } 0
    (tty [PollOutcome.ready 27] []) (CKey.kbHit (-1) (tty [PollOutcome.ready 27] [])).2 27
    (by decide) (by decide) (by decide)).1

/-! ## Facts about `Analize` -/

theorem lastOptarg_none_of_not_hasOpt (cc : Char) (args : List GetoptItem)
    (h : hasOpt cc args = false) : lastOptarg cc args = none := by
  induction args with
  | nil => rfl
  | cons it rest ih =>
    simp only [hasOpt, List.any_cons, Bool.or_eq_false_iff, decide_eq_false_iff_not] at h
    simp only [lastOptarg, ih (by simpa [hasOpt] using h.2), h.1, if_false]

theorem getoptLoop_fields (args : List GetoptItem) (o o1 : COpt)
    (h : getoptLoop o args = (true, o1)) :
    o1.s_choices = (lastOptarg 'c' args).getD o.s_choices ∧
    o1.c_default = ((lastOptarg 'd' args).map optarg0).getD o.c_default ∧
    o1.i_timeout =
      ((lastOptarg 't' args).map
        (fun a => if 0 ≤ atol a ∧ atol a ≤ 9999 then atol a else -1)).getD o.i_timeout ∧
    o1.b_noCase = (o.b_noCase && !hasOpt 's' args) := by
  induction args generalizing o with
  | nil =>
    simp only [getoptLoop, Prod.mk.injEq, true_and] at h
    subst h
    simp [lastOptarg, hasOpt]
  | cons it rest ih =>
    unfold getoptLoop at h
    split_ifs at h with hc hd hh hm hn hs ht
    · obtain ⟨h1, h2, h3, h4⟩ := ih _ h
      have e1 : ¬ it.cc = 'd' := by rw [hc]; decide
      have e2 : ¬ it.cc = 't' := by rw [hc]; decide
      have e3 : ¬ it.cc = 's' := by rw [hc]; decide
      refine ⟨?_, ?_, ?_, ?_⟩
      · rw [h1]; simp only [lastOptarg, hc, if_true]
        cases lastOptarg 'c' rest <;> simp
      · rw [h2]; simp only [lastOptarg, e1, if_false]
        cases lastOptarg 'd' rest <;> simp
      · rw [h3]; simp only [lastOptarg, e2, if_false]
        cases lastOptarg 't' rest <;> simp
      · rw [h4]; simp [hasOpt, e3]
    · obtain ⟨h1, h2, h3, h4⟩ := ih _ h
      have e2 : ¬ it.cc = 't' := by rw [hd]; decide
      have e3 : ¬ it.cc = 's' := by rw [hd]; decide
      refine ⟨?_, ?_, ?_, ?_⟩
      · rw [h1]; simp only [lastOptarg, hc, if_false]
        cases lastOptarg 'c' rest <;> simp
      · rw [h2]; simp only [lastOptarg, hd, if_true]
        cases lastOptarg 'd' rest <;> simp
      · rw [h3]; simp only [lastOptarg, e2, if_false]
        cases lastOptarg 't' rest <;> simp
      · rw [h4]; simp [hasOpt, e3]
    · obtain ⟨h1, h2, h3, h4⟩ := ih _ h
      have e2 : ¬ it.cc = 't' := by rw [hh]; decide
      have e3 : ¬ it.cc = 's' := by rw [hh]; decide
      refine ⟨?_, ?_, ?_, ?_⟩
      · rw [h1]; simp only [lastOptarg, hc, if_false]
        cases lastOptarg 'c' rest <;> simp
      · rw [h2]; simp only [lastOptarg, hd, if_false]
        cases lastOptarg 'd' rest <;> simp
      · rw [h3]; simp only [lastOptarg, e2, if_false]
        cases lastOptarg 't' rest <;> simp
      · rw [h4]; simp [hasOpt, e3]
    · obtain ⟨h1, h2, h3, h4⟩ := ih _ h
      have e2 : ¬ it.cc = 't' := by rw [hm]; decide
      have e3 : ¬ it.cc = 's' := by rw [hm]; decide
      refine ⟨?_, ?_, ?_, ?_⟩
      · rw [h1]; simp only [lastOptarg, hc, if_false]
        cases lastOptarg 'c' rest <;> simp
      · rw [h2]; simp only [lastOptarg, hd, if_false]
        cases lastOptarg 'd' rest <;> simp
      · rw [h3]; simp only [lastOptarg, e2, if_false]
        cases lastOptarg 't' rest <;> simp
      · rw [h4]; simp [hasOpt, e3]
    · obtain ⟨h1, h2, h3, h4⟩ := ih _ h
      have e2 : ¬ it.cc = 't' := by rw [hn]; decide
      have e3 : ¬ it.cc = 's' := by rw [hn]; decide
      refine ⟨?_, ?_, ?_, ?_⟩
      · rw [h1]; simp only [lastOptarg, hc, if_false]
        cases lastOptarg 'c' rest <;> simp
      · rw [h2]; simp only [lastOptarg, hd, if_false]
        cases lastOptarg 'd' rest <;> simp
      · rw [h3]; simp only [lastOptarg, e2, if_false]
        cases lastOptarg 't' rest <;> simp
      · rw [h4]; simp [hasOpt, e3]
    · obtain ⟨h1, h2, h3, h4⟩ := ih _ h
      have e2 : ¬ it.cc = 't' := by rw [hs]; decide
      refine ⟨?_, ?_, ?_, ?_⟩
      · rw [h1]; simp only [lastOptarg, hc, if_false]
        cases lastOptarg 'c' rest <;> simp
      · rw [h2]; simp only [lastOptarg, hd, if_false]
        cases lastOptarg 'd' rest <;> simp
      · rw [h3]; simp only [lastOptarg, e2, if_false]
        cases lastOptarg 't' rest <;> simp
      · rw [h4]; simp [hasOpt, hs]
    · obtain ⟨h1, h2, h3, h4⟩ := ih _ h
      refine ⟨?_, ?_, ?_, ?_⟩
      · rw [h1]; simp only [lastOptarg, hc, if_false]
        cases lastOptarg 'c' rest <;> simp
      · rw [h2]; simp only [lastOptarg, hd, if_false]
        cases lastOptarg 'd' rest <;> simp
      · rw [h3]; simp only [lastOptarg, ht, if_true]
        cases lastOptarg 't' rest <;> simp
      · rw [h4]; simp [hasOpt, hs]
    · simp at h

theorem defaultChoices_fields (o : COpt) :
    (defaultChoices o).c_default = o.c_default ∧ (defaultChoices o).i_timeout = o.i_timeout ∧
    (defaultChoices o).b_noCase = o.b_noCase ∧ (defaultChoices o).b_showHelp = o.b_showHelp ∧
    (defaultChoices o).s_choices = (if o.s_choices.isEmpty then [89, 78] else o.s_choices) := by
  unfold defaultChoices
  split <;> simp_all

theorem verify_true (o1 o : COpt) (h : verify o1 = (true, o)) :
    o = defaultChoices o1 ∧ (∀ c ∈ o.s_choices, isalnum c = true) ∧
    (o.c_default ≠ 0 → isalnum o.c_default = true ∧
      ∃ c ∈ o.s_choices, ruleMatch o.b_noCase c o.c_default = true) ∧
    (0 ≤ o.i_timeout → o.c_default ≠ 0) := by
  unfold verify at h
  simp only [] at h
  split_ifs at h with h1 h2 h3 h4 <;>
    simp only [Prod.mk.injEq, Bool.false_eq_true, false_and, true_and] at h
  subst h
  refine ⟨rfl, ?_, ?_, ?_⟩
  · intro c hc
    have h1a : (defaultChoices o1).s_choices.all (fun c => isalnum c) = true := by
      simpa [isalnum_guard] using h1
    exact (List.all_eq_true.1 h1a) c hc
  · intro hd
    constructor
    · have : ¬ (!(isalnum (defaultChoices o1).c_default &&
          !isspace (defaultChoices o1).c_default)) = true := fun hh => h2 ⟨hd, hh⟩
      simpa [isalnum_guard] using this
    · have : ¬ (!((defaultChoices o1).s_choices.any
          (fun c => keyMatch (defaultChoices o1).b_noCase c (defaultChoices o1).c_default))) = true :=
        fun hh => h3 ⟨hd, hh⟩
      simpa [keyMatch_eq_ruleMatch] using this
  · intro ht hd
    exact h4 ⟨ht, hd⟩

theorem verify_no_default (o1 : COpt) (hd : o1.c_default = 0) (ht : 0 ≤ o1.i_timeout) :
    (verify o1).1 = false := by
  obtain ⟨e1, e2, _⟩ := defaultChoices_fields o1
  unfold verify
  simp only []
  split_ifs with h1 h2 h3 h4
  · rfl
  · rfl
  · rfl
  · rfl
  · exact absurd ⟨by rw [e2]; exact ht, by rw [e1]; exact hd⟩ h4

theorem verify_bad_default (o1 : COpt) (hd : o1.c_default ≠ 0)
    (hm : ∀ c ∈ (defaultChoices o1).s_choices, ruleMatch o1.b_noCase c o1.c_default = false) :
    (verify o1).1 = false := by
  obtain ⟨e1, e2, e3, _⟩ := defaultChoices_fields o1
  unfold verify
  simp only []
  split_ifs with h1 h2 h3 h4
  · rfl
  · rfl
  · rfl
  · rfl
  · exfalso
    apply h3
    refine ⟨by rw [e1]; exact hd, ?_⟩
    simp only [Bool.not_eq_true', List.any_eq_false, keyMatch_eq_ruleMatch, e1, e3]
    intro c hc
    simp [hm c hc]

theorem main_reject (args : List GetoptItem) (s : Sys) (h : (COpt.new.Analize args).1 = false) :
    main args s = (some 255, s) := by
  unfold main
  split
  · rfl
  · next o heq => rw [heq] at h; simp at h

theorem main_accept (args : List GetoptItem) (s : Sys) (o : COpt)
    (h : COpt.new.Analize args = (true, o)) (hh : o.b_showHelp = false) :
    main args s = run o s := by
  unfold main
  rw [h]
  simp [hh]

theorem Analize_eq_verify (args : List GetoptItem) (o1 : COpt)
    (h : getoptLoop COpt.new args = (true, o1)) : COpt.new.Analize args = verify o1 := by
  unfold COpt.Analize
  rw [h]

theorem Analize_loop_failed (args : List GetoptItem) (o1 : COpt)
    (h : getoptLoop COpt.new args = (false, o1)) : (COpt.new.Analize args).1 = false := by
  unfold COpt.Analize
  rw [h]

/-- C6. For every command line whose default character (the first character of the argument of
its last `-d`) matches no entry of its choice string under the configured case rule,
`COpt::Analize` returns false and `main` returns 255 with nothing shown and no key read. -/
theorem Analize_rejects_unmatched_default (args : List GetoptItem) (s : Sys) (a : List Int)
    (hd : lastOptarg 'd' args = some a) (h0 : optarg0 a ≠ 0)
    (hm : ∀ c ∈ choicesOf args, ruleMatch (!hasOpt 's' args) c (optarg0 a) = false) :
    (COpt.new.Analize args).1 = false ∧ main args s = (some 255, s) := by
  have key : (COpt.new.Analize args).1 = false := by
    rcases hl : getoptLoop COpt.new args with ⟨b, o1⟩
    cases b with
    | false => exact Analize_loop_failed args o1 hl
    | true =>
      rw [Analize_eq_verify args o1 hl]
      obtain ⟨f1, f2, _, f4⟩ := getoptLoop_fields args COpt.new o1 hl
      have hdef : o1.c_default = optarg0 a := by rw [f2, hd]; rfl
      have hnc : o1.b_noCase = !hasOpt 's' args := by rw [f4]; simp [COpt.new]
      apply verify_bad_default o1 (by rw [hdef]; exact h0)
      intro c hc
      rw [hdef, hnc]
      apply hm
      rw [(defaultChoices_fields o1).2.2.2.2, f1] at hc
      unfold choicesOf
      cases hcc : lastOptarg 'c' args with
      | none => simpa [hcc, COpt.new] using hc
      | some l =>
        cases l with
        | nil => simpa [hcc] using hc
        | cons x xs => simpa [hcc] using hc
  exact ⟨key, main_reject args s key⟩

theorem Analize_rejects_unmatched_default_witness :
    (COpt.new.Analize [⟨'c', str "YN"⟩, ⟨'d', str "x"⟩]).1 = false ∧
      main [⟨'c', str "YN"⟩, ⟨'d', str "x"⟩] (tty [PollOutcome.ready 120] []) =
        (some 255, tty [PollOutcome.ready 120] []) :=
  Analize_rejects_unmatched_default [⟨'c', str "YN"⟩, ⟨'d', str "x"⟩] (tty [PollOutcome.ready 120] [])
    (str "x") (by decide) (by decide) (by decide)

/-- C7, as stated, fails: `-t 10000` gives a timeout value that is at least 0 and no default, and
`COpt::Analize` accepts it (the value is out of 0..9999, so no timeout is set); `main` goes on to
show the prompt. -/
theorem Analize_accepts_large_timeout :
    (COpt.new.Analize [⟨'t', str "10000"⟩]).1 = true ∧
    0 ≤ atol (str "10000") ∧
    (main [⟨'t', str "10000"⟩] (tty [PollOutcome.ready 121] [])).1 = some 1 := by
  decide

/-- C7, amended. For every command line whose last `-t` has a value in 0..9999 and that gives no
`-d`, `COpt::Analize` returns false and `main` returns 255 with nothing shown and no key read. -/
theorem Analize_rejects_timeout_without_default (args : List GetoptItem) (s : Sys) (a : List Int)
    (ht : lastOptarg 't' args = some a) (hv : 0 ≤ atol a ∧ atol a ≤ 9999)
    (hd : hasOpt 'd' args = false) :
    (COpt.new.Analize args).1 = false ∧ main args s = (some 255, s) := by
  have key : (COpt.new.Analize args).1 = false := by
    rcases hl : getoptLoop COpt.new args with ⟨b, o1⟩
    cases b with
    | false => exact Analize_loop_failed args o1 hl
    | true =>
      rw [Analize_eq_verify args o1 hl]
      obtain ⟨_, f2, f3, _⟩ := getoptLoop_fields args COpt.new o1 hl
      apply verify_no_default o1
      · rw [f2, lastOptarg_none_of_not_hasOpt 'd' args hd]; rfl
      · rw [f3, ht]; simp [hv]
  exact ⟨key, main_reject args s key⟩

theorem Analize_rejects_timeout_without_default_witness :
    (COpt.new.Analize [⟨'t', str "5"⟩]).1 = false ∧
      main [⟨'t', str "5"⟩] (tty [PollOutcome.ready 121] [0, 1]) =
        (some 255, tty [PollOutcome.ready 121] [0, 1]) :=
  Analize_rejects_timeout_without_default [⟨'t', str "5"⟩] (tty [PollOutcome.ready 121] [0, 1])
    (str "5") (by decide) (by decide) (by decide)

theorem Analize_accept (args : List GetoptItem) (o : COpt)
    (h : COpt.new.Analize args = (true, o)) :
    (∀ c ∈ o.s_choices, isalnum c = true) ∧
    (-1 ≤ o.i_timeout ∧ o.i_timeout ≤ 9999) ∧
    (0 ≤ o.i_timeout → o.c_default ≠ 0) ∧
    (o.c_default ≠ 0 → isalnum o.c_default = true ∧
      ∃ c ∈ o.s_choices, ruleMatch o.b_noCase c o.c_default = true) := by
  rcases hl : getoptLoop COpt.new args with ⟨b, o1⟩
  cases b with
  | false =>
    have := Analize_loop_failed args o1 hl
    rw [h] at this
    simp at this
  | true =>
    rw [Analize_eq_verify args o1 hl] at h
    obtain ⟨e, v1, v2, v3⟩ := verify_true o1 o h
    obtain ⟨_, _, f3, _⟩ := getoptLoop_fields args COpt.new o1 hl
    refine ⟨v1, ?_, v3, v2⟩
    rw [e, (defaultChoices_fields o1).2.1, f3]
    cases lastOptarg 't' args with
    | none => simp [COpt.new]
    | some a =>
      simp only [Option.map_some', Option.getD_some]
      split <;> omega

theorem KeyInOpt_of_match (o : COpt) (c : Int) (hc : isalnum c = true)
    (hm : ∃ x ∈ o.s_choices, ruleMatch o.b_noCase x c = true) :
    ∃ i : Nat, o.KeyInOpt c = (i : Int) ∧ i < o.s_choices.length := by
  rcases KeyInOpt_cases o c with h | ⟨i, hi, hlt, _⟩
  · rcases (KeyInOpt_eq_neg o c).1 h with h1 | h1
    · rw [hc] at h1; simp at h1
    · obtain ⟨x, hx, hxm⟩ := hm
      have := (firstIndex_eq_none _ _).1 h1 x hx
      simp only [] at this
      rw [hxm] at this
      simp at this
  · exact ⟨i, hi, hlt⟩

theorem elapsed_eq (t0 t1 : Nat) (h : t0 ≤ t1) (hlt : t1 - t0 < 2147483648) :
    elapsed t0 t1 = ((t1 - t0 : Nat) : Int) := by
  unfold elapsed toInt32
  omega

theorem finish_index (o : COpt) (n : Int) (s : Sys) (h0 : 0 ≤ n) (h1 : n < 255) :
    finish o n s = (some (n + 1), o.Cleanup s) := by
  unfold finish
  have : ¬ n < 0 := by omega
  simp [this, h1]

/-- C3, as stated, fails. With 255 entries `a` followed by `b`, default `b` and timeout 0, `main`
returns 255 and not 256, the 1-based index of `b`. And with the choices "YNC", default `C` and
timeout 0, a reading of the clock 4294967295 ms after the start is narrowed to the `int` -1:
`main` calls `kbHit(1)`, and returns 1 for the typed `Y` instead of 3. -/
theorem timeout_default_diverges :
    (main [⟨'c', List.replicate 255 97 ++ [98]⟩, ⟨'d', str "b"⟩, ⟨'t', str "0"⟩]
      (tty [] [0, 0])).1 = some 255 ∧
    (COpt.new.Analize [⟨'c', List.replicate 255 97 ++ [98]⟩, ⟨'d', str "b"⟩, ⟨'t', str "0"⟩]).1
      = true ∧
    (main [⟨'c', str "YNC"⟩, ⟨'d', str "C"⟩, ⟨'t', str "0"⟩]
      (tty [PollOutcome.ready 89] [0, 4294967295])).1 = some 1 ∧
    Effect.kbHit 1 89 ∈ (main [⟨'c', str "YNC"⟩, ⟨'d', str "C"⟩, ⟨'t', str "0"⟩]
      (tty [PollOutcome.ready 89] [0, 4294967295])).2.log := by
  refine ⟨by decide, by decide, by decide, by decide⟩

theorem kbHit_log_last (timeout : Int) (s s1 : Sys) (key : Int)
    (h : CKey.kbHit timeout s = (some key, s1)) :
    s1.log.getLast? = some (Effect.kbHit timeout key) := by
  by_cases ht : s.isatty = true ∧ s.tcgetattrOk = true
  · cases hp : s.polls with
    | nil =>
      rw [kbHit_blocked timeout s ht.1 ht.2 hp] at h
      simp at h
    | cons p rest =>
      rw [kbHit_tty timeout s p rest ht.1 ht.2 hp] at h
      simp only [Prod.mk.injEq, Option.some.injEq] at h
      obtain ⟨hk, hs⟩ := h
      subst hk hs
      simp [kbHitLog]
  · have hn : s.isatty = false ∨ s.tcgetattrOk = false := by
      cases h1 : s.isatty <;> cases h2 : s.tcgetattrOk <;> simp_all
    rw [kbHit_notty timeout s hn] at h
    simp only [Prod.mk.injEq, Option.some.injEq] at h
    obtain ⟨hk, hs⟩ := h
    subst hk hs
    simp [Sys.emit]

theorem loopNoTimeout_post (o : COpt) (fuel : Nat) (s s1 : Sys) (n : Int)
    (h : loopNoTimeout o fuel s = (some n, s1)) :
    (∃ key, n = o.KeyInOpt key ∧ 0 ≤ n) ∨
      (n = 255 ∧ ∃ t, s1.log.getLast? = some (Effect.kbHit t 1)) := by
  induction fuel generalizing s with
  | zero => simp [loopNoTimeout] at h
  | succ f ih =>
    rcases hk : CKey.kbHit (-1) s with ⟨r, s2⟩
    cases r with
    | none => simp [loopNoTimeout, hk] at h
    | some key =>
      rw [loopNoTimeout_succ o f s s2 key hk] at h
      split_ifs at h with h1 h2
      · simp only [Prod.mk.injEq, Option.some.injEq] at h
        left
        exact ⟨key, h.1.symm, by rw [← h.1]; exact h1.2⟩
      · simp only [Prod.mk.injEq, Option.some.injEq] at h
        right
        refine ⟨h.1.symm, -1, ?_⟩
        have hl := kbHit_log_last (-1) s s2 key hk
        rw [h2] at hl
        rw [← h.2]
        exact hl
      · exact ih _ h

theorem loopTimeout_succ (o : COpt) (t0 t1 : Nat) (nTimeout : Int) (fuel : Nat) (s s2 : Sys)
    (cl : List Nat) (key0 : Int) (hc : s.clock = t1 :: cl)
    (hk : timedKey t0 t1 nTimeout { s with clock := cl } = (some key0, s2)) :
    loopTimeout o t0 nTimeout (fuel + 1) s =
      if key0 = 1 then (some 255, s2)
      else if 0 ≤ o.KeyInOpt (if key0 = 0 then o.c_default else key0) then
        (some (o.KeyInOpt (if key0 = 0 then o.c_default else key0)), s2)
      else loopTimeout o t0 nTimeout fuel (s2.emit Effect.bell) := by
  simp only [loopTimeout, hc, hk]

theorem timedKey_error (t0 t1 : Nat) (nTimeout : Int) (s0 s2 : Sys)
    (h : timedKey t0 t1 nTimeout s0 = (some 1, s2)) :
    ∃ t, s2.log.getLast? = some (Effect.kbHit t 1) := by
  unfold timedKey at h
  simp only [] at h
  by_cases g1 : nTimeout ≤ elapsed t0 t1
  · simp [g1] at h
  · by_cases g2 : 0 < toInt32 (nTimeout - elapsed t0 t1)
    · rw [if_neg g1, if_pos g2] at h
      exact ⟨_, kbHit_log_last _ _ _ _ h⟩
    · simp [g1, g2] at h

theorem loopTimeout_post (o : COpt) (t0 : Nat) (nTimeout : Int) (fuel : Nat) (s s1 : Sys) (n : Int)
    (h : loopTimeout o t0 nTimeout fuel s = (some n, s1)) :
    (∃ key, n = o.KeyInOpt key ∧ 0 ≤ n) ∨
      (n = 255 ∧ ∃ t, s1.log.getLast? = some (Effect.kbHit t 1)) := by
  induction fuel generalizing s with
  | zero => simp [loopTimeout] at h
  | succ f ih =>
    cases hc : s.clock with
    | nil => simp [loopTimeout, hc] at h
    | cons t1 cl =>
      rcases hk : timedKey t0 t1 nTimeout { s with clock := cl } with ⟨r, s2⟩
      cases r with
      | none => simp [loopTimeout, hc, hk] at h
      | some key0 =>
        rw [loopTimeout_succ o t0 t1 nTimeout f s s2 cl key0 hc hk] at h
        by_cases h1 : key0 = 1
        · rw [if_pos h1] at h
          simp only [Prod.mk.injEq, Option.some.injEq] at h
          right
          refine ⟨h.1.symm, ?_⟩
          rw [← h.2]
          rw [h1] at hk
          exact timedKey_error t0 t1 nTimeout _ s2 hk
        · rw [if_neg h1] at h
          by_cases h2 : 0 ≤ o.KeyInOpt (if key0 = 0 then o.c_default else key0)
          · rw [if_pos h2] at h
            simp only [Prod.mk.injEq, Option.some.injEq] at h
            left
            exact ⟨_, h.1.symm, by rw [← h.1]; exact h2⟩
          · rw [if_neg h2] at h
            exact ih _ h

theorem finish_error (o : COpt) (s : Sys) : finish o 255 s = (some 255, s) := by
  simp [finish]

theorem run_loop (o : COpt) (s s1 : Sys) (code : Int) (h : run o s = (some code, s1)) :
    ∃ n s2, finish o n s2 = (some code, s1) ∧
      ((∃ key, n = o.KeyInOpt key ∧ 0 ≤ n) ∨
        (n = 255 ∧ ∃ t, s2.log.getLast? = some (Effect.kbHit t 1))) := by
  unfold run at h
  simp only [] at h
  split at h
  · simp at h
  · next n s2 heq =>
    refine ⟨n, s2, h, ?_⟩
    split_ifs at heq with h1
    · exact loopNoTimeout_post o _ _ s2 n heq
    · split at heq
      · simp at heq
      · exact loopTimeout_post o _ _ _ _ s2 n heq

/-! ## The waiting loop without a timeout -/

theorem ruleMatch_iff (noCase : Bool) (x c : Int) :
    ruleMatch noCase x c = true ↔ caseFold noCase x = caseFold noCase c := by
  cases noCase <;> simp [ruleMatch, caseFold]

theorem toupper_idem (c : Int) : toupper (toupper c) = toupper c := by
  simp only [toupper, islower]
  split_ifs with h1 h2
  all_goals simp only [decide_eq_true_eq] at *
  all_goals omega

theorem toupper_tolower (c : Int) : toupper (tolower c) = toupper c := by
  simp only [toupper, tolower, islower, isupper]
  split_ifs with h1 h2 h3 h4 <;> simp only [decide_eq_true_eq] at * <;> omega

theorem isalnum_toupper (c : Int) (h : isalnum c = true) : isalnum (toupper c) = true := by
  simp only [toupper, islower, isalnum, isdigit, isupper, Bool.or_eq_true, decide_eq_true_eq] at *
  split_ifs with h1 <;> omega

theorem isalnum_tolower (c : Int) (h : isalnum c = true) : isalnum (tolower c) = true := by
  simp only [tolower, islower, isalnum, isdigit, isupper, Bool.or_eq_true, decide_eq_true_eq] at *
  split_ifs with h1 <;> omega

theorem caseFold_range (noCase : Bool) (c : Int) (h : isalnum c = true) :
    48 ≤ caseFold noCase c ∧ caseFold noCase c ≤ 122 := by
  cases noCase
  · exact isalnum_range c h
  · exact isalnum_range _ (isalnum_toupper c h)

theorem nodup_alnum_length (noCase : Bool) (l : List Int) (hal : ∀ c ∈ l, isalnum c = true)
    (hnd : (l.map (caseFold noCase)).Nodup) : l.length ≤ 123 := by
  have hm : ((l.map (caseFold noCase)).map Int.toNat).Nodup := by
    apply List.Nodup.map_on _ hnd
    intro x hx y hy hxy
    obtain ⟨a, ha, rfl⟩ := List.mem_map.1 hx
    obtain ⟨b, hb, rfl⟩ := List.mem_map.1 hy
    have := caseFold_range noCase a (hal a ha)
    have := caseFold_range noCase b (hal b hb)
    omega
  have hsub : (l.map (caseFold noCase)).map Int.toNat ⊆ List.range 123 := by
    intro n hn
    obtain ⟨x, hx, rfl⟩ := List.mem_map.1 hn
    obtain ⟨a, ha, rfl⟩ := List.mem_map.1 hx
    have := caseFold_range noCase a (hal a ha)
    rw [List.mem_range]
    omega
  have := (List.Nodup.subperm hm hsub).length_le
  simpa using this

theorem KeyInOpt_distinct (o : COpt) (i : Nat) (c k : Int)
    (hnd : (o.s_choices.map (caseFold o.b_noCase)).Nodup)
    (hi : o.s_choices[i]? = some c) (hk : isalnum k = true)
    (hm : ruleMatch o.b_noCase c k = true) : o.KeyInOpt k = (i : Int) := by
  rw [KeyInOpt_eq_nat]
  refine ⟨hk, (firstIndex_eq_some _ _ i).2 ⟨⟨c, hi, hm⟩, ?_⟩⟩
  intro j hj y hy
  by_contra hne
  have hyk : ruleMatch o.b_noCase y k = true := by simpa using hne
  have e : caseFold o.b_noCase y = caseFold o.b_noCase c := by
    rw [(ruleMatch_iff _ _ _).1 hyk, (ruleMatch_iff _ _ _).1 hm]
  have hil : i < (o.s_choices.map (caseFold o.b_noCase)).length := by
    rw [List.length_map]
    exact (List.getElem?_eq_some_iff.1 hi).1
  have := List.nodup_iff_getElem?_ne_getElem?.1 hnd j i hj hil
  apply this
  rw [List.getElem?_map, List.getElem?_map, hy, hi]
  simp [e]

theorem loopNoTimeout_after_rejected (o : COpt) (p : PollOutcome) (rest : List PollOutcome)
    (hm : (33 ≤ keyOf p ∧ keyOf p ≤ 126) ∧ 0 ≤ o.KeyInOpt (keyOf p)) (pre : List PollOutcome) :
    ∀ (s : Sys) (fuel : Nat), s.isatty = true → s.tcgetattrOk = true →
      s.polls = pre ++ p :: rest → pre.length < fuel →
      (∀ q ∈ pre, keyOf q ≠ 1 ∧ ¬ ((33 ≤ keyOf q ∧ keyOf q ≤ 126) ∧ 0 ≤ o.KeyInOpt (keyOf q))) →
      ∃ s1, loopNoTimeout o fuel s = (some (o.KeyInOpt (keyOf p)), s1) ∧ s1.polls = rest ∧
        s1.term = s.term ∧ s1.clock = s.clock := by
  induction pre with
  | nil =>
    intro s fuel h1 h2 hp hf _
    obtain ⟨f, rfl⟩ : ∃ f, fuel = f + 1 := ⟨fuel - 1, by simp at hf; omega⟩
    rw [loopNoTimeout_succ o f s _ _ (kbHit_tty (-1) s p rest h1 h2 (by simpa using hp)), if_pos hm]
    exact ⟨_, rfl, rfl, rfl, rfl⟩
  | cons q qs ih =>
    intro s fuel h1 h2 hp hf hrej
    obtain ⟨f, rfl⟩ : ∃ f, fuel = f + 1 := ⟨fuel - 1, by simp at hf; omega⟩
    have hq := hrej q (List.mem_cons_self q qs)
    rw [loopNoTimeout_succ o f s _ _
      (kbHit_tty (-1) s q (qs ++ p :: rest) h1 h2 (by simpa using hp)), if_neg hq.2, if_neg hq.1]
    obtain ⟨s1, e1, e2, e3, e4⟩ :=
      ih (Sys.emit { s with polls := qs ++ p :: rest, log := s.log ++ kbHitLog (-1) s.term q }
          Effect.bell) f h1 h2 rfl
        (by simp at hf; omega) (fun x hx => hrej x (List.mem_cons_of_mem q hx))
    exact ⟨s1, e1, e2, e3, e4⟩

theorem Cleanup_fields (o : COpt) (s : Sys) :
    (o.Cleanup s).polls = s.polls ∧ (o.Cleanup s).term = s.term ∧ (o.Cleanup s).clock = s.clock := by
  unfold COpt.Cleanup
  split <;> simp [Sys.emit]

/-- C1. With no timeout configured, for every accepted choice string (so made of alphanumeric
characters) whose entries are distinct under the configured case rule, and every position `i` in
it: when the key read from the terminal, after any keys that were rejected, is the character at
position `i` (or, in case-insensitive mode, that character in either case), `KeyInOpt` gives `i`,
the loop ends on that key (the later input is left unread, the terminal is as it was) and `main`
returns `i + 1`. -/
theorem no_timeout_returns_position (args : List GetoptItem) (o : COpt) (s : Sys)
    (pre rest : List PollOutcome) (i : Nat) (c k : Int)
    (h : COpt.new.Analize args = (true, o)) (hh : o.b_showHelp = false) (ht : o.i_timeout < 0)
    (hnd : (o.s_choices.map (caseFold o.b_noCase)).Nodup)
    (h1 : s.isatty = true) (h2 : s.tcgetattrOk = true)
    (hi : o.s_choices[i]? = some c)
    (hk : k = c ∨ (o.b_noCase = true ∧ (k = toupper c ∨ k = tolower c)))
    (hp : s.polls = pre ++ PollOutcome.ready k :: rest)
    (hpre : ∀ q ∈ pre,
      keyOf q ≠ 1 ∧ ¬ ((33 ≤ keyOf q ∧ keyOf q ≤ 126) ∧ 0 ≤ o.KeyInOpt (keyOf q))) :
    o.KeyInOpt k = (i : Int) ∧ (main args s).1 = some ((i : Int) + 1) ∧
    (main args s).2.polls = rest ∧ (main args s).2.term = s.term := by
  obtain ⟨hal, _, _, _⟩ := Analize_accept args o h
  have hc : isalnum c = true := hal c (List.getElem?_mem hi)
  have hka : isalnum k = true := by
    rcases hk with rfl | ⟨_, rfl | rfl⟩
    · exact hc
    · exact isalnum_toupper c hc
    · exact isalnum_tolower c hc
  have hmatch : ruleMatch o.b_noCase c k = true := by
    rcases hk with rfl | ⟨hn, rfl | rfl⟩
    · cases o.b_noCase <;> simp [ruleMatch]
    · simp [ruleMatch, hn, toupper_idem]
    · simp [ruleMatch, hn, toupper_tolower]
  have hidx := KeyInOpt_distinct o i c k hnd hi hka hmatch
  have hlen := nodup_alnum_length o.b_noCase o.s_choices hal hnd
  have hil : i < o.s_choices.length := (List.getElem?_eq_some_iff.1 hi).1
  have hkr := isalnum_range k hka
  have hkey : keyOf (PollOutcome.ready k) = k := by
    simp only [keyOf, toChar]
    omega
  have hm : (33 ≤ keyOf (PollOutcome.ready k) ∧ keyOf (PollOutcome.ready k) ≤ 126) ∧
      0 ≤ o.KeyInOpt (keyOf (PollOutcome.ready k)) := by
    rw [hkey, hidx]
    omega
  obtain ⟨s1, e1, e2, e3, _⟩ := loopNoTimeout_after_rejected o (PollOutcome.ready k) rest hm pre
    (o.ShowPrompt s) ((o.ShowPrompt s).polls.length + 1) h1 h2 hp
    (by
      have : (o.ShowPrompt s).polls = pre ++ PollOutcome.ready k :: rest := hp
      rw [this]; simp; omega) hpre
  have hrun : run o s = (some ((i : Int) + 1), o.Cleanup s1) := by
    unfold run
    simp only [ht, if_true, e1]
    rw [hkey, hidx, finish_index o i s1 (by omega) (by omega)]
  rw [main_accept args s o h hh, hrun]
  refine ⟨hidx, rfl, ?_, ?_⟩
  · rw [(Cleanup_fields o s1).1, e2]
  · rw [(Cleanup_fields o s1).2.1, e3]; rfl

theorem no_timeout_returns_position_witness :
    (main [⟨'c', str "YN"⟩] (tty [PollOutcome.ready 121] [])).1 = some 1 ∧
    (main [⟨'c', str "YN"⟩] (tty [PollOutcome.ready 89] [])).1 = some 1 ∧
    (main [⟨'c', str "YN"⟩] (tty [PollOutcome.ready 110] [])).1 = some 2 ∧
    (main [⟨'c', str "YN"⟩] (tty [PollOutcome.ready 78] [])).1 = some 2 :=
  ⟨(no_timeout_returns_position [⟨'c', str "YN"⟩] { COpt.new with s_choices := str "YN" }
      (tty [PollOutcome.ready 121] []) [] [] 0 89 121 (by decide) rfl (by decide) (by decide) rfl rfl
      (by decide) (by decide) rfl (by simp)).2.1,
   (no_timeout_returns_position [⟨'c', str "YN"⟩] { COpt.new with s_choices := str "YN" }
      (tty [PollOutcome.ready 89] []) [] [] 0 89 89 (by decide) rfl (by decide) (by decide) rfl rfl
      (by decide) (by decide) rfl (by simp)).2.1,
   (no_timeout_returns_position [⟨'c', str "YN"⟩] { COpt.new with s_choices := str "YN" }
      (tty [PollOutcome.ready 110] []) [] [] 1 78 110 (by decide) rfl (by decide) (by decide) rfl rfl
      (by decide) (by decide) rfl (by simp)).2.1,
   (no_timeout_returns_position [⟨'c', str "YN"⟩] { COpt.new with s_choices := str "YN" }
      (tty [PollOutcome.ready 78] []) [] [] 1 78 78 (by decide) rfl (by decide) (by decide) rfl rfl
      (by decide) (by decide) rfl (by simp)).2.1⟩

/-! ## Standard input that is not a terminal -/

theorem sameTerminal_refl (s : Sys) : SameTerminal s s := ⟨Eq.refl _, fun _ h => h⟩

theorem sameTerminal_emit (s s1 : Sys) (e : Effect) (h : SameTerminal s s1)
    (he : ∀ t, e ≠ Effect.tcsetattr t) : SameTerminal s (s1.emit e) := by
  refine ⟨h.1, ?_⟩
  intro t ht
  simp only [Sys.emit, List.mem_append, List.mem_singleton] at ht
  rcases ht with ht | ht
  · exact h.2 t ht
  · exact absurd ht.symm (he t)

theorem sameTerminal_cleanup (o : COpt) (s s1 : Sys) (h : SameTerminal s s1) :
    SameTerminal s (o.Cleanup s1) := by
  unfold COpt.Cleanup
  split
  · exact sameTerminal_emit s s1 _ h (by simp)
  · exact h

theorem sameTerminal_finish (o : COpt) (n : Int) (s s1 : Sys) (h : SameTerminal s s1) :
    SameTerminal s (finish o n s1).2 := by
  unfold finish
  simp only []
  split_ifs
  · exact sameTerminal_cleanup o s s1 h
  · exact h
  · exact sameTerminal_cleanup o s s1 h
  · exact h

theorem loopNoTimeout_notty (o : COpt) (fuel : Nat) (s : Sys)
    (hn : s.isatty = false ∨ s.tcgetattrOk = false) :
    loopNoTimeout o (fuel + 1) s = (some 255, s.emit (Effect.kbHit (-1) 1)) := by
  rw [loopNoTimeout_succ o fuel s _ 1 (kbHit_notty (-1) s hn)]
  simp

theorem loopTimeout_notty (o : COpt) (t0 : Nat) (nTimeout : Int) (fuel : Nat) (s : Sys)
    (hn : s.isatty = false ∨ s.tcgetattrOk = false) (hd : 0 ≤ o.KeyInOpt o.c_default) :
    SameTerminal s (loopTimeout o t0 nTimeout fuel s).2 := by
  cases fuel with
  | zero => exact sameTerminal_refl s
  | succ f =>
    cases hc : s.clock with
    | nil =>
      simp only [loopTimeout, hc]
      exact sameTerminal_refl s
    | cons t1 cl =>
      have h0 : SameTerminal s { s with clock := cl } := ⟨rfl, fun _ h => h⟩
      by_cases g : nTimeout ≤ elapsed t0 t1 ∨ ¬ 0 < toInt32 (nTimeout - elapsed t0 t1)
      · have hk : timedKey t0 t1 nTimeout { s with clock := cl } = (some 0, { s with clock := cl }) := by
          unfold timedKey
          rcases g with g | g
          · simp [g]
          · by_cases g1 : nTimeout ≤ elapsed t0 t1
            · simp [g1]
            · simp [g1, g]
        rw [loopTimeout_succ o t0 t1 nTimeout f s _ cl 0 hc hk]
        simp only [if_true, hd]
        simpa using h0
      · have g1 : ¬ nTimeout ≤ elapsed t0 t1 := fun h => g (Or.inl h)
        have g2 : 0 < toInt32 (nTimeout - elapsed t0 t1) := by
          by_contra h; exact g (Or.inr h)
        have hk : timedKey t0 t1 nTimeout { s with clock := cl } =
            (some 1, Sys.emit { s with clock := cl }
              (Effect.kbHit (toInt32 (nTimeout - elapsed t0 t1)) 1)) := by
          unfold timedKey
          simp only [g1, g2, if_false, if_true]
          exact kbHit_notty _ { s with clock := cl } hn
        rw [loopTimeout_succ o t0 t1 nTimeout f s _ cl 1 hc hk]
        simp only [if_true]
        exact sameTerminal_emit s _ _ h0 (by simp)

theorem sameTerminal_trans (s s1 s2 : Sys) (h1 : SameTerminal s s1) (h2 : SameTerminal s1 s2) :
    SameTerminal s s2 :=
  ⟨h2.1.trans h1.1, fun t ht => h1.2 t (h2.2 t ht)⟩

theorem run_notty_sameTerminal (o : COpt) (s : Sys)
    (hn : s.isatty = false ∨ s.tcgetattrOk = false) (hd : 0 ≤ o.i_timeout → 0 ≤ o.KeyInOpt o.c_default) :
    SameTerminal s (run o s).2 := by
  have hp : SameTerminal s (o.ShowPrompt s) := sameTerminal_emit s s _ (sameTerminal_refl s) (by simp)
  unfold run
  simp only []
  by_cases ht : o.i_timeout < 0
  · simp only [ht, if_true]
    rw [loopNoTimeout_notty o _ (o.ShowPrompt s) hn]
    simp only []
    exact sameTerminal_finish o 255 s _ (sameTerminal_emit s _ _ hp (by simp))
  · simp only [ht, if_false]
    cases hc : (o.ShowPrompt s).clock with
    | nil => exact hp
    | cons t0 cl =>
      simp only []
      have hl := loopTimeout_notty o t0 (toInt32 (o.i_timeout * 1000)) (cl.length + 1)
        { o.ShowPrompt s with clock := cl } hn (hd (by omega))
      have h0 : SameTerminal s { o.ShowPrompt s with clock := cl } := ⟨hp.1, hp.2⟩
      have h2 := sameTerminal_trans s _ _ h0 hl
      rcases hr : loopTimeout o t0 (toInt32 (o.i_timeout * 1000)) (cl.length + 1)
        { o.ShowPrompt s with clock := cl } with ⟨r, s2⟩
      rw [hr] at h2
      cases r with
      | none => exact h2
      | some n => exact sameTerminal_finish o n s s2 h2

/-- C9, as stated, fails: with the accepted configuration `-c YNC -d C -t 0` and a standard input
that is not a terminal, `main` returns 3, the index of the default, and not 255: with the time
used up at once it never calls `kbHit`, which is where the terminal is tested. -/
theorem not_a_terminal_timeout_zero :
    (COpt.new.Analize [⟨'c', str "YNC"⟩, ⟨'d', str "C"⟩, ⟨'t', str "0"⟩]).1 = true ∧
    (main [⟨'c', str "YNC"⟩, ⟨'d', str "C"⟩, ⟨'t', str "0"⟩]
      { tty [] [0, 0] with isatty := false }).1 = some 3 := by
  decide

/-! ## The waiting loop with a timeout -/

theorem timedKey_expired (t0 t1 : Nat) (nTimeout : Int) (s0 : Sys) (h : Expired nTimeout t0 t1) :
    timedKey t0 t1 nTimeout s0 = (some 0, s0) := by
  unfold timedKey
  by_cases g1 : nTimeout ≤ elapsed t0 t1
  · simp [g1]
  · rcases h with h | h
    · exact absurd h g1
    · simp [g1, h]

theorem timedKey_live (t0 t1 : Nat) (nTimeout : Int) (s0 : Sys) (h : ¬ Expired nTimeout t0 t1) :
    timedKey t0 t1 nTimeout s0 = CKey.kbHit (toInt32 (nTimeout - elapsed t0 t1)) s0 := by
  unfold Expired at h
  have g1 : ¬ nTimeout ≤ elapsed t0 t1 := fun g => h (Or.inl g)
  have g2 : 0 < toInt32 (nTimeout - elapsed t0 t1) := by
    by_contra g; exact h (Or.inr g)
  unfold timedKey
  simp [g1, g2]

theorem kbHitCalls_append (l1 l2 : List Effect) :
    kbHitCalls (l1 ++ l2) = kbHitCalls l1 + kbHitCalls l2 := by
  simp [kbHitCalls]

theorem kbHitCalls_kbHitLog (timeout : Int) (t : termios) (p : PollOutcome) :
    kbHitCalls (kbHitLog timeout t p) = 1 := by
  simp [kbHitCalls, kbHitLog, isKbHit, List.countP_cons]

theorem loopTimeout_after_rejected (o : COpt) (t0 : Nat) (nTimeout : Int) (tk : Nat)
    (cl : List Nat) (rest : List PollOutcome) (hexp : Expired nTimeout t0 tk)
    (hd : 0 ≤ o.KeyInOpt o.c_default) (pre : List (Nat × PollOutcome)) :
    ∀ (s : Sys) (fuel : Nat), (pre = [] ∨ (s.isatty = true ∧ s.tcgetattrOk = true)) →
      s.clock = pre.map Prod.fst ++ tk :: cl → s.polls = pre.map Prod.snd ++ rest →
      pre.length < fuel →
      (∀ x ∈ pre, ¬ Expired nTimeout t0 x.1 ∧ keyOf x.2 ≠ 0 ∧ keyOf x.2 ≠ 1 ∧
        o.KeyInOpt (keyOf x.2) < 0) →
      ∃ s1, loopTimeout o t0 nTimeout fuel s = (some (o.KeyInOpt o.c_default), s1) ∧
        s1.polls = rest ∧ s1.clock = cl ∧ s1.term = s.term ∧
        kbHitCalls s1.log = kbHitCalls s.log + pre.length := by
  induction pre with
  | nil =>
    intro s fuel _ hc hp hf _
    obtain ⟨f, rfl⟩ : ∃ f, fuel = f + 1 := ⟨fuel - 1, by simp at hf; omega⟩
    rw [loopTimeout_succ o t0 tk nTimeout f s _ cl 0 (by simpa using hc)
      (timedKey_expired t0 tk nTimeout _ hexp)]
    simp only [if_true, hd]
    refine ⟨{ s with clock := cl }, rfl, ?_, rfl, rfl, ?_⟩
    · simpa using hp
    · simp
  | cons x xs ih =>
    intro s fuel htty hc hp hf hrej
    obtain ⟨f, rfl⟩ : ∃ f, fuel = f + 1 := ⟨fuel - 1, by simp at hf; omega⟩
    obtain ⟨h1, h2⟩ : s.isatty = true ∧ s.tcgetattrOk = true := by
      rcases htty with h | h
      · simp at h
      · exact h
    obtain ⟨hx1, hx2, hx3, hx4⟩ := hrej x (List.mem_cons_self x xs)
    have hk : timedKey t0 x.1 nTimeout { s with clock := xs.map Prod.fst ++ tk :: cl } =
        (some (keyOf x.2),
          { s with clock := xs.map Prod.fst ++ tk :: cl, polls := xs.map Prod.snd ++ rest,
                   log := s.log ++ kbHitLog (toInt32 (nTimeout - elapsed t0 x.1)) s.term x.2 }) := by
      rw [timedKey_live t0 x.1 nTimeout _ hx1]
      exact kbHit_tty _ { s with clock := xs.map Prod.fst ++ tk :: cl } x.2
        (xs.map Prod.snd ++ rest) h1 h2 (by simpa using hp)
    rw [loopTimeout_succ o t0 x.1 nTimeout f s _ _ (keyOf x.2) (by simpa using hc) hk]
    have hneg : ¬ 0 ≤ o.KeyInOpt (keyOf x.2) := by omega
    simp only [if_neg hx3, if_neg hx2, if_neg hneg]
    obtain ⟨s1, e1, e2, e3, e4, e5⟩ :=
      ih (Sys.emit { s with clock := xs.map Prod.fst ++ tk :: cl,
                            polls := xs.map Prod.snd ++ rest,
                            log := s.log ++ kbHitLog (toInt32 (nTimeout - elapsed t0 x.1)) s.term x.2 }
          Effect.bell) f (Or.inr ⟨h1, h2⟩) rfl rfl
        (by simp at hf; omega) (fun y hy => hrej y (List.mem_cons_of_mem x hy))
    refine ⟨s1, e1, e2, e3, e4, ?_⟩
    rw [e5]
    simp only [Sys.emit, kbHitCalls_append, kbHitCalls_kbHitLog, List.length_cons]
    simp [kbHitCalls, isKbHit]
    omega

theorem kbHitCalls_prompt (o : COpt) (s : Sys) :
    kbHitCalls (o.ShowPrompt s).log = kbHitCalls s.log := by
  simp [COpt.ShowPrompt, Sys.emit, kbHitCalls, isKbHit]

theorem kbHitCalls_cleanup (o : COpt) (s : Sys) :
    kbHitCalls (o.Cleanup s).log = kbHitCalls s.log := by
  unfold COpt.Cleanup
  split <;> simp [Sys.emit, kbHitCalls, isKbHit]

theorem toInt32_timeout (t : Int) (h0 : -1 ≤ t) (h1 : t ≤ 9999) :
    toInt32 (t * 1000) = t * 1000 := by
  unfold toInt32
  omega

theorem expired_of_elapsed (t : Int) (t0 tk : Nat) (h0k : t0 ≤ tk)
    (he : t * 1000 ≤ ((tk - t0 : Nat) : Int)) (hlt : tk - t0 < 2147483648) :
    Expired (t * 1000) t0 tk := by
  left
  rw [elapsed_eq t0 tk h0k hlt]
  exact he

theorem not_expired_of_elapsed (t : Int) (t0 ti : Nat) (ht : t ≤ 9999) (h0i : t0 ≤ ti)
    (he : ((ti - t0 : Nat) : Int) < t * 1000) : ¬ Expired (t * 1000) t0 ti := by
  have hel : elapsed t0 ti = ((ti - t0 : Nat) : Int) := elapsed_eq t0 ti h0i (by omega)
  unfold Expired
  rw [hel]
  unfold toInt32
  omega

/-- C3, amended. In timeout mode, for every configuration `COpt::Analize` accepts (timeout `t` in
0..9999 with a default character `d`) in which `KeyInOpt(d)` is below 255: at the first iteration
of the loop of `main` at which the time elapsed since the start of the wait is at least `t * 1000`
ms and below 2^31 ms, after any iterations with less time elapsed in which a key was read and
rejected (none when `t = 0`), `main` substitutes `d` without a call of `kbHit`: the calls of
`kbHit` are those of the earlier iterations, the later keys and clock readings are left, the
terminal is as it was; `KeyInOpt(d)` is an index whose entry matches `d`, and `main` returns that
index plus one. -/
theorem timeout_expired_selects_default (args : List GetoptItem) (o : COpt) (s : Sys)
    (t0 tk : Nat) (pre : List (Nat × PollOutcome)) (cl : List Nat) (rest : List PollOutcome)
    (h : COpt.new.Analize args = (true, o)) (hh : o.b_showHelp = false) (ht : 0 ≤ o.i_timeout)
    (hidx : o.KeyInOpt o.c_default < 255)
    (htty : pre = [] ∨ (s.isatty = true ∧ s.tcgetattrOk = true))
    (hcl : s.clock = t0 :: (pre.map Prod.fst ++ tk :: cl))
    (hp : s.polls = pre.map Prod.snd ++ rest)
    (hpre : ∀ x ∈ pre, t0 ≤ x.1 ∧ ((x.1 - t0 : Nat) : Int) < o.i_timeout * 1000 ∧
      keyOf x.2 ≠ 0 ∧ keyOf x.2 ≠ 1 ∧ o.KeyInOpt (keyOf x.2) < 0)
    (h0k : t0 ≤ tk) (he : o.i_timeout * 1000 ≤ ((tk - t0 : Nat) : Int))
    (hlt : tk - t0 < 2147483648) :
    o.i_timeout ≤ 9999 ∧ o.c_default ≠ 0 ∧ (o.i_timeout = 0 → pre = []) ∧
    ∃ i : Nat, o.KeyInOpt o.c_default = (i : Int) ∧
      (∃ x, o.s_choices[i]? = some x ∧ ruleMatch o.b_noCase x o.c_default = true) ∧
      (main args s).1 = some ((i : Int) + 1) ∧
      (main args s).2.polls = rest ∧ (main args s).2.clock = cl ∧
      (main args s).2.term = s.term ∧
      kbHitCalls (main args s).2.log = kbHitCalls s.log + pre.length := by
  obtain ⟨_, hr, hdef, hmatch⟩ := Analize_accept args o h
  have hd := hdef ht
  obtain ⟨hal, hex⟩ := hmatch hd
  obtain ⟨i, hi, _⟩ := KeyInOpt_of_match o o.c_default hal hex
  have hnT := toInt32_timeout o.i_timeout hr.1 hr.2
  have hpre0 : o.i_timeout = 0 → pre = [] := by
    intro h0
    cases pre with
    | nil => rfl
    | cons x xs =>
      have := (hpre x (List.mem_cons_self x xs)).2.1
      rw [h0] at this
      omega
  have hrej : ∀ x ∈ pre, ¬ Expired (o.i_timeout * 1000) t0 x.1 ∧ keyOf x.2 ≠ 0 ∧ keyOf x.2 ≠ 1 ∧
      o.KeyInOpt (keyOf x.2) < 0 := by
    intro x hx
    obtain ⟨a1, a2, a3, a4, a5⟩ := hpre x hx
    exact ⟨not_expired_of_elapsed o.i_timeout t0 x.1 hr.2 a1 a2, a3, a4, a5⟩
  obtain ⟨s1, e1, e2, e3, e4, e5⟩ :=
    loopTimeout_after_rejected o t0 (o.i_timeout * 1000) tk cl rest
      (expired_of_elapsed o.i_timeout t0 tk h0k he hlt) (by rw [hi]; omega) pre
      { o.ShowPrompt s with clock := pre.map Prod.fst ++ tk :: cl }
      ((pre.map Prod.fst ++ tk :: cl).length + 1) htty rfl hp (by simp; omega) hrej
  have hrun : run o s = (some ((i : Int) + 1), o.Cleanup s1) := by
    unfold run
    have hnt : ¬ o.i_timeout < 0 := by omega
    have hc2 : (o.ShowPrompt s).clock = t0 :: (pre.map Prod.fst ++ tk :: cl) := hcl
    simp only [hnt, if_false, hc2, hnT, e1]
    rw [hi, finish_index o i s1 (by omega) (by omega)]
  rw [main_accept args s o h hh, hrun]
  refine ⟨hr.2, hd, hpre0, i, hi, ?_, rfl, ?_, ?_, ?_, ?_⟩
  · exact ((firstIndex_eq_some _ _ i).1 ((KeyInOpt_eq_nat o o.c_default i).1 hi).2).1
  · rw [(Cleanup_fields o s1).1, e2]
  · rw [(Cleanup_fields o s1).2.2, e3]
  · rw [(Cleanup_fields o s1).2.1, e4]; rfl
  · rw [kbHitCalls_cleanup, e5]
    exact congrArg (· + pre.length) (kbHitCalls_prompt o s)

theorem timeout_expired_selects_default_witness :
    (main [⟨'c', str "YNC"⟩, ⟨'d', str "C"⟩, ⟨'t', str "0"⟩] (tty [] [7, 7])).1 = some 3 ∧
    kbHitCalls (main [⟨'c', str "YNC"⟩, ⟨'d', str "C"⟩, ⟨'t', str "0"⟩] (tty [] [7, 7])).2.log
      = 0 ∧
    (main [⟨'c', str "YNC"⟩, ⟨'d', str "C"⟩, ⟨'t', str "5"⟩]
      (tty [PollOutcome.ready 120, PollOutcome.ready 121] [100, 1100, 5200])).1 = some 3 ∧
    (main [⟨'c', str "YNC"⟩, ⟨'d', str "C"⟩, ⟨'t', str "5"⟩]
      (tty [PollOutcome.ready 120, PollOutcome.ready 121] [100, 1100, 5200])).2.polls
      = [PollOutcome.ready 121] ∧
    kbHitCalls (main [⟨'c', str "YNC"⟩, ⟨'d', str "C"⟩, ⟨'t', str "5"⟩]
      (tty [PollOutcome.ready 120, PollOutcome.ready 121] [100, 1100, 5200])).2.log = 1 := by
  obtain ⟨_, _, _, i, h1, _, h2, _, _, _, h3⟩ :=
    timeout_expired_selects_default [⟨'c', str "YNC"⟩, ⟨'d', str "C"⟩, ⟨'t', str "0"⟩]
      { COpt.new with s_choices := str "YNC", c_default := 67, i_timeout := 0 } (tty [] [7, 7])
      7 7 [] [] [] (by decide) rfl (by decide) (by decide) (Or.inl rfl) rfl rfl (by simp)
      (by decide) (by decide) (by decide)
  obtain ⟨_, _, _, j, g1, _, g2, g3, _, _, g4⟩ :=
    timeout_expired_selects_default [⟨'c', str "YNC"⟩, ⟨'d', str "C"⟩, ⟨'t', str "5"⟩]
      { COpt.new with s_choices := str "YNC", c_default := 67, i_timeout := 5 }
      (tty [PollOutcome.ready 120, PollOutcome.ready 121] [100, 1100, 5200])
      100 5200 [(1100, PollOutcome.ready 120)] [] [PollOutcome.ready 121]
      (by decide) rfl (by decide) (by decide) (Or.inr ⟨rfl, rfl⟩) rfl rfl (by decide)
      (by decide) (by decide) (by decide)
  have hi : (i : Int) = 2 := by rw [← h1]; decide
  have hj : (j : Int) = 2 := by rw [← g1]; decide
  rw [hi] at h2
  rw [hj] at g2
  exact ⟨h2, h3, g2, g3, g4⟩

/-! ## Typed keys and the reserved values -/

/-- C5, amended. For every byte `c` other than 0 and 1 delivered when data is ready, `kbHit`
returns `c` as a `char`, which is neither the 0 it returns on a timeout nor the 1 it returns on an
error of the wait or when the input is not a terminal; so both loops of `main` dispatch on that
key itself: the loop ends with `nErrLevel = KeyInOpt(key)` when the key matches, and otherwise
sounds the alert and goes on. Neither the substitution of the default that follows a timeout nor
the `nErrLevel = 255` that follows an error is applied to it. -/
theorem kbHit_key_distinct (o : COpt) (s : Sys) (c : Int) (rest : List PollOutcome)
    (timeout : Int) (h1 : s.isatty = true) (h2 : s.tcgetattrOk = true) (hc : 2 ≤ c ∧ c ≤ 255) :
    (CKey.kbHit timeout { s with polls := PollOutcome.ready c :: rest }).1 = some (toChar c) ∧
    (CKey.kbHit timeout { s with polls := PollOutcome.timeout :: rest }).1 = some 0 ∧
    (CKey.kbHit timeout { s with polls := PollOutcome.error :: rest }).1 = some 1 ∧
    (CKey.kbHit timeout { s with isatty := false }).1 = some 1 ∧
    (CKey.kbHit timeout { s with tcgetattrOk := false }).1 = some 1 ∧
    toChar c ≠ 0 ∧ toChar c ≠ 1 ∧ toChar c = (if c ≤ 127 then c else c - 256) ∧
    (∀ fuel : Nat,
      loopNoTimeout o (fuel + 1) { s with polls := PollOutcome.ready c :: rest } =
        if (33 ≤ toChar c ∧ toChar c ≤ 126) ∧ 0 ≤ o.KeyInOpt (toChar c) then
          (some (o.KeyInOpt (toChar c)),
            (CKey.kbHit (-1) { s with polls := PollOutcome.ready c :: rest }).2)
        else
          loopNoTimeout o fuel
            ((CKey.kbHit (-1) { s with polls := PollOutcome.ready c :: rest }).2.emit
              Effect.bell)) ∧
    (∀ (fuel t0 t1 : Nat) (cl : List Nat) (nTimeout : Int), ¬ Expired nTimeout t0 t1 →
      loopTimeout o t0 nTimeout (fuel + 1)
          { s with polls := PollOutcome.ready c :: rest, clock := t1 :: cl } =
        if 0 ≤ o.KeyInOpt (toChar c) then
          (some (o.KeyInOpt (toChar c)),
            (CKey.kbHit (toInt32 (nTimeout - elapsed t0 t1))
              { s with polls := PollOutcome.ready c :: rest, clock := cl }).2)
        else
          loopTimeout o t0 nTimeout fuel
            ((CKey.kbHit (toInt32 (nTimeout - elapsed t0 t1))
              { s with polls := PollOutcome.ready c :: rest, clock := cl }).2.emit
              Effect.bell)) := by
  have hb := toChar_byte c (by omega) hc.2
  have hn0 : toChar c ≠ 0 := by rw [hb]; split <;> omega
  have hn1 : toChar c ≠ 1 := by rw [hb]; split <;> omega
  refine ⟨?_, ?_, ?_, ?_, ?_, hn0, hn1, hb, ?_, ?_⟩
  · rw [kbHit_tty timeout { s with polls := PollOutcome.ready c :: rest } (PollOutcome.ready c)
      rest h1 h2 rfl]; rfl
  · rw [kbHit_tty timeout { s with polls := PollOutcome.timeout :: rest } (PollOutcome.timeout)
      rest h1 h2 rfl]; rfl
  · rw [kbHit_tty timeout { s with polls := PollOutcome.error :: rest } (PollOutcome.error)
      rest h1 h2 rfl]; rfl
  · rw [kbHit_notty timeout { s with isatty := false } (Or.inl rfl)]
  · rw [kbHit_notty timeout { s with tcgetattrOk := false } (Or.inr rfl)]
  · intro fuel
    have hk := kbHit_tty (-1) { s with polls := PollOutcome.ready c :: rest }
      (PollOutcome.ready c) rest h1 h2 rfl
    rw [loopNoTimeout_succ o fuel _ _ _ hk, hk]
    simp only [keyOf, if_neg hn1]
  · intro fuel t0 t1 cl nTimeout hlive
    have hk := kbHit_tty (toInt32 (nTimeout - elapsed t0 t1))
      { s with polls := PollOutcome.ready c :: rest, clock := cl }
      (PollOutcome.ready c) rest h1 h2 rfl
    have ht : timedKey t0 t1 nTimeout
        { ({ s with polls := PollOutcome.ready c :: rest, clock := t1 :: cl } : Sys) with
            clock := cl } = _ :=
      (timedKey_live t0 t1 nTimeout _ hlive).trans hk
    rw [loopTimeout_succ o t0 t1 nTimeout fuel _ _ cl _ rfl ht, hk]
    simp only [keyOf, if_neg hn1, if_neg hn0]

theorem kbHit_key_distinct_witness :
    (CKey.kbHit (-1) { tty [] [] with polls := PollOutcome.ready 121 :: [] }).1
      = some (toChar 121) ∧ toChar 121 ≠ 1 ∧
    loopNoTimeout { COpt.new with s_choices := str "YN" } 1
        { tty [] [] with polls := PollOutcome.ready 121 :: [] } =
      (some 0, (CKey.kbHit (-1) { tty [] [] with polls := PollOutcome.ready 121 :: [] }).2) := by
  have h := kbHit_key_distinct { COpt.new with s_choices := str "YN" } (tty [] []) 121 [] (-1)
    rfl rfl (by decide)
  refine ⟨h.1, h.2.2.2.2.2.2.1, ?_⟩
  rw [h.2.2.2.2.2.2.2.2.1 0]
  decide

/-! ## What ends a run -/

theorem keyOf_eq_one_iff (p : PollOutcome) : keyOf p = 1 ↔ IsErrorOutcome p := by
  cases p with
  | ready g => simp [keyOf, IsErrorOutcome]
  | timeout => simp [keyOf, IsErrorOutcome]
  | error => simp [keyOf, IsErrorOutcome]

theorem loopNoTimeout_end (o : COpt) (fuel : Nat) :
    ∀ (s s1 : Sys) (n : Int), s.isatty = true → s.tcgetattrOk = true →
      loopNoTimeout o fuel s = (some n, s1) →
      ∃ (used : List PollOutcome) (p : PollOutcome), s.polls = used ++ p :: s1.polls ∧
        (∀ q ∈ used,
          keyOf q ≠ 1 ∧ ¬ ((33 ≤ keyOf q ∧ keyOf q ≤ 126) ∧ 0 ≤ o.KeyInOpt (keyOf q))) ∧
        ((keyOf p = 1 ∧ n = 255) ∨
          (keyOf p ≠ 1 ∧ 0 ≤ o.KeyInOpt (keyOf p) ∧ n = o.KeyInOpt (keyOf p))) := by
  induction fuel with
  | zero => intro s s1 n _ _ h; simp [loopNoTimeout] at h
  | succ f ih =>
    intro s s1 n h1 h2 h
    cases hp : s.polls with
    | nil =>
      simp [loopNoTimeout, kbHit_blocked (-1) s h1 h2 hp] at h
    | cons p rest =>
      rw [loopNoTimeout_succ o f s _ _ (kbHit_tty (-1) s p rest h1 h2 hp)] at h
      by_cases hm : (33 ≤ keyOf p ∧ keyOf p ≤ 126) ∧ 0 ≤ o.KeyInOpt (keyOf p)
      · rw [if_pos hm] at h
        simp only [Prod.mk.injEq, Option.some.injEq] at h
        refine ⟨[], p, ?_, by simp, Or.inr ⟨by omega, hm.2, h.1.symm⟩⟩
        rw [← h.2]; rfl
      · rw [if_neg hm] at h
        by_cases hk : keyOf p = 1
        · rw [if_pos hk] at h
          simp only [Prod.mk.injEq, Option.some.injEq] at h
          refine ⟨[], p, ?_, by simp, Or.inl ⟨hk, h.1.symm⟩⟩
          rw [← h.2]; rfl
        · rw [if_neg hk] at h
          obtain ⟨used, p2, e1, e2, e3⟩ := ih _ s1 n (by exact h1) (by exact h2) h
          refine ⟨p :: used, p2, ?_, ?_, e3⟩
          · have : rest = used ++ p2 :: s1.polls := e1
            rw [this]; rfl
          · intro q hq
            rcases List.mem_cons.1 hq with rfl | hq
            · exact ⟨hk, hm⟩
            · exact e2 q hq

theorem loopTimeout_none (o : COpt) (t0 t1 : Nat) (nTimeout : Int) (fuel : Nat) (s s2 : Sys)
    (cl : List Nat) (hc : s.clock = t1 :: cl)
    (hk : timedKey t0 t1 nTimeout { s with clock := cl } = (none, s2)) :
    loopTimeout o t0 nTimeout (fuel + 1) s = (none, s2) := by
  simp only [loopTimeout, hc, hk]

theorem loopTimeout_end (o : COpt) (t0 : Nat) (nTimeout : Int)
    (hd : 0 ≤ o.KeyInOpt o.c_default) (fuel : Nat) :
    ∀ (s s1 : Sys) (n : Int), s.isatty = true → s.tcgetattrOk = true →
      loopTimeout o t0 nTimeout fuel s = (some n, s1) →
      ∃ (pre : List (Nat × PollOutcome)) (tk : Nat),
        s.clock = pre.map Prod.fst ++ tk :: s1.clock ∧
        (∀ x ∈ pre, ¬ Expired nTimeout t0 x.1 ∧ keyOf x.2 ≠ 0 ∧ keyOf x.2 ≠ 1 ∧
          o.KeyInOpt (keyOf x.2) < 0) ∧
        ((Expired nTimeout t0 tk ∧ s.polls = pre.map Prod.snd ++ s1.polls ∧
            n = o.KeyInOpt o.c_default) ∨
          (¬ Expired nTimeout t0 tk ∧ ∃ p, s.polls = pre.map Prod.snd ++ p :: s1.polls ∧
            ((keyOf p = 1 ∧ n = 255) ∨
              (keyOf p ≠ 1 ∧ 0 ≤ o.KeyInOpt (withDefault o (keyOf p)) ∧
                n = o.KeyInOpt (withDefault o (keyOf p)))))) := by
  induction fuel with
  | zero => intro s s1 n _ _ h; simp [loopTimeout] at h
  | succ f ih =>
    intro s s1 n h1 h2 h
    cases hc : s.clock with
    | nil => simp [loopTimeout, hc] at h
    | cons t1 cl =>
      by_cases hexp : Expired nTimeout t0 t1
      · rw [loopTimeout_succ o t0 t1 nTimeout f s _ cl 0 hc
          (timedKey_expired t0 t1 nTimeout _ hexp)] at h
        have h3 : (some (o.KeyInOpt o.c_default), ({ s with clock := cl } : Sys)) = (some n, s1) := by
          simpa [hd] using h
        simp only [Prod.mk.injEq, Option.some.injEq] at h3
        refine ⟨[], t1, ?_, by simp, Or.inl ⟨hexp, ?_, h3.1.symm⟩⟩
        · rw [← h3.2]; rfl
        · rw [← h3.2]; rfl
      · cases hp : s.polls with
        | nil =>
          have hk : timedKey t0 t1 nTimeout { s with clock := cl } = (none, _) :=
            (timedKey_live t0 t1 nTimeout _ hexp).trans
              (kbHit_blocked _ { s with clock := cl } h1 h2 hp)
          rw [loopTimeout_none o t0 t1 nTimeout f s _ cl hc hk] at h
          simp at h
        | cons p rest =>
          have hk : timedKey t0 t1 nTimeout { s with clock := cl } = (some (keyOf p), _) :=
            (timedKey_live t0 t1 nTimeout _ hexp).trans
              (kbHit_tty _ { s with clock := cl } p rest h1 h2 hp)
          rw [loopTimeout_succ o t0 t1 nTimeout f s _ cl (keyOf p) hc hk] at h
          by_cases hk1 : keyOf p = 1
          · rw [if_pos hk1] at h
            simp only [Prod.mk.injEq, Option.some.injEq] at h
            refine ⟨[], t1, ?_, by simp, Or.inr ⟨hexp, p, ?_, Or.inl ⟨hk1, h.1.symm⟩⟩⟩
            · rw [← h.2]; rfl
            · rw [← h.2]; rfl
          · rw [if_neg hk1] at h
            by_cases hm : 0 ≤ o.KeyInOpt (if keyOf p = 0 then o.c_default else keyOf p)
            · rw [if_pos hm] at h
              simp only [Prod.mk.injEq, Option.some.injEq] at h
              refine ⟨[], t1, ?_, by simp, Or.inr ⟨hexp, p, ?_, Or.inr ⟨hk1, hm, h.1.symm⟩⟩⟩
              · rw [← h.2]; rfl
              · rw [← h.2]; rfl
            · rw [if_neg hm] at h
              have hk0 : keyOf p ≠ 0 := by
                intro h0
                rw [if_pos h0] at hm
                exact hm hd
              rw [if_neg hk0] at hm
              obtain ⟨pre, tk, e1, e2, e3⟩ := ih _ s1 n (by exact h1) (by exact h2) h
              refine ⟨(t1, p) :: pre, tk, ?_, ?_, ?_⟩
              · have : cl = pre.map Prod.fst ++ tk :: s1.clock := e1
                rw [this]; rfl
              · intro x hx
                rcases List.mem_cons.1 hx with rfl | hx
                · exact ⟨hexp, hk0, hk1, not_le.1 hm⟩
                · exact e2 x hx
              · rcases e3 with ⟨a1, a2, a3⟩ | ⟨a1, q, a2, a3⟩
                · left
                  refine ⟨a1, ?_, a3⟩
                  have : rest = pre.map Prod.snd ++ s1.polls := a2
                  rw [this]; rfl
                · right
                  refine ⟨a1, q, ?_, a3⟩
                  have : rest = pre.map Prod.snd ++ q :: s1.polls := a2
                  rw [this]; rfl

theorem loopTimeout_first_notty (o : COpt) (t0 t1 : Nat) (nTimeout : Int) (fuel : Nat) (s : Sys)
    (cl : List Nat) (hn : s.isatty = false ∨ s.tcgetattrOk = false)
    (hd : 0 ≤ o.KeyInOpt o.c_default) (hc : s.clock = t1 :: cl) :
    (Expired nTimeout t0 t1 →
      loopTimeout o t0 nTimeout (fuel + 1) s =
        (some (o.KeyInOpt o.c_default), { s with clock := cl })) ∧
    (¬ Expired nTimeout t0 t1 →
      loopTimeout o t0 nTimeout (fuel + 1) s =
        (some 255, Sys.emit { s with clock := cl }
          (Effect.kbHit (toInt32 (nTimeout - elapsed t0 t1)) 1))) := by
  constructor
  · intro hexp
    rw [loopTimeout_succ o t0 t1 nTimeout fuel s _ cl 0 hc
      (timedKey_expired t0 t1 nTimeout _ hexp)]
    simp [hd]
  · intro hexp
    have hk : timedKey t0 t1 nTimeout { s with clock := cl } = (some 1, _) :=
      (timedKey_live t0 t1 nTimeout _ hexp).trans (kbHit_notty _ { s with clock := cl } hn)
    rw [loopTimeout_succ o t0 t1 nTimeout fuel s _ cl 1 hc hk]
    simp

theorem finish_nonneg (o : COpt) (n : Int) (s : Sys) (h0 : 0 ≤ n) :
    finish o n s =
      (some (if n < 255 then n + 1 else n), if n < 255 then o.Cleanup s else s) := by
  unfold finish
  have : ¬ n < 0 := by omega
  simp only [this, if_false]
  split <;> rfl

theorem reportsChoice_of (o : COpt) (key : Int) (h0 : 0 ≤ o.KeyInOpt key)
    (hidx : ∀ k : Int, o.KeyInOpt k < 254) : ReportsChoice o key (o.KeyInOpt key + 1) := by
  have hk := hidx key
  rcases KeyInOpt_cases o key with hneg | ⟨i, hi, hlt, _⟩
  · omega
  · refine ⟨i, hi, ?_, by rw [hi], by omega, by omega, by omega⟩
    exact ((firstIndex_eq_some _ _ i).1 ((KeyInOpt_eq_nat o key i).1 hi).2).1

theorem KeyInOpt_lt_length (o : COpt) (key : Int) : o.KeyInOpt key < (o.s_choices.length : Int) := by
  rcases KeyInOpt_cases o key with hneg | ⟨i, hi, hlt, _⟩ <;> omega

theorem run_split (o : COpt) (s s1 : Sys) (code : Int) (h : run o s = (some code, s1)) :
    ∃ n s2, finish o n s2 = (some code, s1) ∧
      ((o.i_timeout < 0 ∧
          loopNoTimeout o ((o.ShowPrompt s).polls.length + 1) (o.ShowPrompt s) = (some n, s2)) ∨
        (¬ o.i_timeout < 0 ∧ ∃ t0 cl, s.clock = t0 :: cl ∧
          loopTimeout o t0 (toInt32 (o.i_timeout * 1000)) (cl.length + 1)
            { o.ShowPrompt s with clock := cl } = (some n, s2))) := by
  unfold run at h
  simp only [] at h
  split at h
  · simp at h
  · next n s2 heq =>
    refine ⟨n, s2, h, ?_⟩
    by_cases ht : o.i_timeout < 0
    · left
      rw [if_pos ht] at heq
      exact ⟨ht, heq⟩
    · right
      rw [if_neg ht] at heq
      cases hc : (o.ShowPrompt s).clock with
      | nil => rw [hc] at heq; simp at heq
      | cons t0 cl =>
        rw [hc] at heq
        exact ⟨ht, t0, cl, hc, heq⟩

theorem finish_fields (o : COpt) (n code : Int) (s2 s1 : Sys)
    (h : finish o n s2 = (some code, s1)) : s1.polls = s2.polls ∧ s1.clock = s2.clock := by
  unfold finish at h
  simp only [] at h
  split_ifs at h <;> simp only [Prod.mk.injEq, Option.some.injEq] at h <;> rw [← h.2]
  · exact ⟨(Cleanup_fields o s2).1, (Cleanup_fields o s2).2.2⟩
  · exact ⟨rfl, rfl⟩
  · exact ⟨(Cleanup_fields o s2).1, (Cleanup_fields o s2).2.2⟩
  · exact ⟨rfl, rfl⟩

theorem KeyInOpt_lt_of_length (o : COpt) (hN : o.s_choices.length ≤ 254) (k : Int) :
    o.KeyInOpt k < 254 := by
  have := KeyInOpt_lt_length o k
  omega

theorem finish_choice (o : COpt) (key code : Int) (s2 s1 : Sys) (h0 : 0 ≤ o.KeyInOpt key)
    (hN : ∀ k : Int, o.KeyInOpt k < 254) (h : finish o (o.KeyInOpt key) s2 = (some code, s1)) :
    ReportsChoice o key code := by
  have hlt := hN key
  rw [finish_index o _ s2 h0 (by omega)] at h
  simp only [Prod.mk.injEq, Option.some.injEq] at h
  rw [← h.1]
  exact reportsChoice_of o key h0 hN

theorem finish_code_error (o : COpt) (code : Int) (s2 s1 : Sys)
    (h : finish o 255 s2 = (some code, s1)) : code = 255 := by
  rw [finish_error] at h
  simp only [Prod.mk.injEq, Option.some.injEq] at h
  exact h.1.symm

/-- C4, as stated, fails: with 254 entries `a` followed by `b`, which `COpt::Analize` accepts, the
typed `b` is matched at index 254 and `main` returns 255 although every `kbHit` succeeded (the
prompt line is cleared as on success); with 256 entries `a` followed by `b`, `main` returns 256,
which is out of 0..255; and with the choices "YN" on a terminal whose reads all succeed, the
typed byte 1 makes `main` return 255. -/
theorem matched_choice_returns_255 :
    (COpt.new.Analize [⟨'c', List.replicate 254 97 ++ [98]⟩]).1 = true ∧
    (main [⟨'c', List.replicate 254 97 ++ [98]⟩] (tty [PollOutcome.ready 98] [])).1 = some 255 ∧
    (main [⟨'c', List.replicate 254 97 ++ [98]⟩] (tty [PollOutcome.ready 98] [])).2.log.getLast?
      = some Effect.clearLine ∧
    (main [⟨'c', List.replicate 256 97 ++ [98]⟩] (tty [PollOutcome.ready 98] [])).1 = some 256 ∧
    (main [⟨'c', str "YN"⟩] (tty [PollOutcome.ready 120, PollOutcome.ready 1] [])).1
      = some 255 := by
  refine ⟨by decide, by decide, by decide, by decide, by decide⟩

/-- C4, amended. For every configuration `COpt::Analize` accepts in which no key is matched at
index 254 or beyond (so whenever the choice string has N ≤ 254 entries), and every sequence of
read results: whenever `main` returns, the value is within 0..255, and it is 0 when the help was
asked for. Otherwise the run consumed read results up to one that ended it, all earlier ones
having been rejected, and: if that last result is a failed wait or a typed byte 1, `main` returns
255; if not, the key it gives (the default character when the wait timed out) matches a choice
and `main` returns the 1-based index of the first choice matching it, within 1..N and never 255
or 0. In timeout mode the run may instead end at a test that finds the time used up, and `main`
then returns the index of the first choice matching the default. When the input is not a
terminal, `main` returns 255, unless in timeout mode the first test finds the time used up. -/
theorem main_exit_status (args : List GetoptItem) (o : COpt) (s s1 : Sys) (code : Int)
    (h : COpt.new.Analize args = (true, o)) (hN : ∀ k : Int, o.KeyInOpt k < 254)
    (hm : main args s = (some code, s1)) :
    (0 ≤ code ∧ code ≤ 255) ∧
    (o.b_showHelp = true → code = 0) ∧
    (o.b_showHelp = false → o.i_timeout < 0 → s.isatty = true → s.tcgetattrOk = true →
      ∃ (used : List PollOutcome) (p : PollOutcome), s.polls = used ++ p :: s1.polls ∧
        (∀ q ∈ used,
          keyOf q ≠ 1 ∧ ¬ ((33 ≤ keyOf q ∧ keyOf q ≤ 126) ∧ 0 ≤ o.KeyInOpt (keyOf q))) ∧
        ((IsErrorOutcome p ∧ code = 255) ∨
          (¬ IsErrorOutcome p ∧ ReportsChoice o (keyOf p) code))) ∧
    (o.b_showHelp = false → 0 ≤ o.i_timeout → s.isatty = true → s.tcgetattrOk = true →
      ∃ (t0 : Nat) (pre : List (Nat × PollOutcome)) (tk : Nat),
        s.clock = t0 :: (pre.map Prod.fst ++ tk :: s1.clock) ∧
        (∀ x ∈ pre, ¬ Expired (o.i_timeout * 1000) t0 x.1 ∧ keyOf x.2 ≠ 0 ∧ keyOf x.2 ≠ 1 ∧
          o.KeyInOpt (keyOf x.2) < 0) ∧
        ((Expired (o.i_timeout * 1000) t0 tk ∧ s.polls = pre.map Prod.snd ++ s1.polls ∧
            ReportsChoice o o.c_default code) ∨
          (¬ Expired (o.i_timeout * 1000) t0 tk ∧
            ∃ p, s.polls = pre.map Prod.snd ++ p :: s1.polls ∧
              ((IsErrorOutcome p ∧ code = 255) ∨
                (¬ IsErrorOutcome p ∧ ReportsChoice o (withDefault o (keyOf p)) code))))) ∧
    (o.b_showHelp = false → (s.isatty = false ∨ s.tcgetattrOk = false) →
      (o.i_timeout < 0 → code = 255) ∧
      (0 ≤ o.i_timeout → ∃ (t0 tk : Nat), s.clock = t0 :: tk :: s1.clock ∧
        ((Expired (o.i_timeout * 1000) t0 tk ∧ ReportsChoice o o.c_default code) ∨
          (¬ Expired (o.i_timeout * 1000) t0 tk ∧ code = 255)))) := by
  obtain ⟨_, hr, hdef, hmatch⟩ := Analize_accept args o h
  have hd : 0 ≤ o.i_timeout → 0 ≤ o.KeyInOpt o.c_default := by
    intro ht
    obtain ⟨hal, hex⟩ := hmatch (hdef ht)
    obtain ⟨i, hi, _⟩ := KeyInOpt_of_match o o.c_default hal hex
    rw [hi]; omega
  have hnT := toInt32_timeout o.i_timeout hr.1 hr.2
  cases hh : o.b_showHelp with
  | true =>
    have : main args s = (some 0, s.emit Effect.help) := by
      unfold main; rw [h]; simp [hh]
    rw [this] at hm
    simp only [Prod.mk.injEq, Option.some.injEq] at hm
    refine ⟨by omega, fun _ => hm.1.symm, ?_, ?_, ?_⟩ <;> intro hf <;> simp at hf
  | false =>
    rw [main_accept args s o h hh] at hm
    obtain ⟨n, s2, hf, hloop⟩ := run_split o s s1 code hm
    obtain ⟨fp, fc⟩ := finish_fields o n code s2 s1 hf
    have hrange : 0 ≤ code ∧ code ≤ 255 := by
      obtain ⟨n2, s3, hf2, hpost⟩ := run_loop o s s1 code hm
      rcases hpost with ⟨key, hn, h0⟩ | ⟨hn, _⟩
      · rw [hn] at hf2 h0
        obtain ⟨i, hi, _, hc, _, hle, _⟩ := finish_choice o key code s3 s1 h0 hN hf2
        have := hN key
        omega
      · rw [hn] at hf2
        have := finish_code_error o code s3 s1 hf2
        omega
    refine ⟨hrange, fun hf => by simp at hf, fun _ => ?_, fun _ => ?_, fun _ => ?_⟩
    · intro ht h1 h2
      rcases hloop with ⟨_, hl⟩ | ⟨hnt, _⟩
      · obtain ⟨used, p, e1, e2, e3⟩ := loopNoTimeout_end o _ (o.ShowPrompt s) s2 n h1 h2 hl
        refine ⟨used, p, ?_, e2, ?_⟩
        · rw [fp]; exact e1
        · rcases e3 with ⟨a1, a2⟩ | ⟨a1, a2, a3⟩
          · left
            rw [a2] at hf
            exact ⟨(keyOf_eq_one_iff p).1 a1, finish_code_error o code s2 s1 hf⟩
          · right
            rw [a3] at hf
            exact ⟨fun hc => a1 ((keyOf_eq_one_iff p).2 hc), finish_choice o _ code s2 s1 a2 hN hf⟩
      · exact absurd ht hnt
    · intro ht h1 h2
      rcases hloop with ⟨hlt, _⟩ | ⟨_, t0, cl, hc, hl⟩
      · omega
      · rw [hnT] at hl
        obtain ⟨pre, tk, e1, e2, e3⟩ := loopTimeout_end o t0 (o.i_timeout * 1000) (hd ht) _
          { o.ShowPrompt s with clock := cl } s2 n h1 h2 hl
        refine ⟨t0, pre, tk, ?_, e2, ?_⟩
        · rw [hc, fc]
          exact congrArg (t0 :: ·) e1
        · rcases e3 with ⟨a1, a2, a3⟩ | ⟨a1, p, a2, a3⟩
          · left
            rw [a3] at hf
            refine ⟨a1, ?_, finish_choice o _ code s2 s1 (hd ht) hN hf⟩
            rw [fp]; exact a2
          · right
            refine ⟨a1, p, ?_, ?_⟩
            · rw [fp]; exact a2
            · rcases a3 with ⟨b1, b2⟩ | ⟨b1, b2, b3⟩
              · left
                rw [b2] at hf
                exact ⟨(keyOf_eq_one_iff p).1 b1, finish_code_error o code s2 s1 hf⟩
              · right
                rw [b3] at hf
                exact ⟨fun hc => b1 ((keyOf_eq_one_iff p).2 hc),
                  finish_choice o _ code s2 s1 b2 hN hf⟩
    · intro hn
      constructor
      · intro ht
        rcases hloop with ⟨_, hl⟩ | ⟨hnt, _⟩
        · rw [loopNoTimeout_notty o _ (o.ShowPrompt s) hn] at hl
          simp only [Prod.mk.injEq, Option.some.injEq] at hl
          rw [← hl.1] at hf
          exact finish_code_error o code s2 s1 hf
        · exact absurd ht hnt
      · intro ht
        rcases hloop with ⟨hlt, _⟩ | ⟨_, t0, cl, hc, hl⟩
        · omega
        · rw [hnT] at hl
          cases hcl : cl with
          | nil =>
            rw [hcl] at hl
            simp [loopTimeout] at hl
          | cons tk cl2 =>
            rw [hcl] at hl hc
            by_cases hexp : Expired (o.i_timeout * 1000) t0 tk
            · rw [show (tk :: cl2).length + 1 = (cl2.length + 1) + 1 from rfl] at hl
              have hl3 := (loopTimeout_first_notty o t0 tk (o.i_timeout * 1000) (cl2.length + 1)
                { o.ShowPrompt s with clock := tk :: cl2 } cl2 hn (hd ht) rfl).1 hexp
              rw [hl3] at hl
              simp only [Prod.mk.injEq, Option.some.injEq] at hl
              refine ⟨t0, tk, ?_, ?_⟩
              · rw [hc, fc, ← hl.2]
              · left
                rw [← hl.1] at hf
                exact ⟨hexp, finish_choice o _ code s2 s1 (hd ht) hN hf⟩
            · rw [show (tk :: cl2).length + 1 = (cl2.length + 1) + 1 from rfl] at hl
              have hl3 := (loopTimeout_first_notty o t0 tk (o.i_timeout * 1000) (cl2.length + 1)
                { o.ShowPrompt s with clock := tk :: cl2 } cl2 hn (hd ht) rfl).2 hexp
              rw [hl3] at hl
              simp only [Prod.mk.injEq, Option.some.injEq] at hl
              refine ⟨t0, tk, ?_, ?_⟩
              · rw [hc, fc, ← hl.2]; rfl
              · right
                rw [← hl.1] at hf
                exact ⟨hexp, finish_code_error o code s2 s1 hf⟩

theorem main_exit_status_witness :
    ((0 : Int) ≤ 2 ∧ (2 : Int) ≤ 255) ∧
    ∃ (used : List PollOutcome) (p : PollOutcome),
      (tty [PollOutcome.ready 120, PollOutcome.ready 110, PollOutcome.ready 121] []).polls =
        used ++ p ::
          (main [⟨'c', str "YN"⟩]
            (tty [PollOutcome.ready 120, PollOutcome.ready 110, PollOutcome.ready 121] [])).2.polls ∧
      (∀ q ∈ used, keyOf q ≠ 1 ∧ ¬ ((33 ≤ keyOf q ∧ keyOf q ≤ 126) ∧
        0 ≤ ({ COpt.new with s_choices := str "YN" } : COpt).KeyInOpt (keyOf q))) ∧
      ((IsErrorOutcome p ∧ (2 : Int) = 255) ∨
        (¬ IsErrorOutcome p ∧
          ReportsChoice { COpt.new with s_choices := str "YN" } (keyOf p) 2)) :=
  ⟨(main_exit_status [⟨'c', str "YN"⟩] { COpt.new with s_choices := str "YN" }
      (tty [PollOutcome.ready 120, PollOutcome.ready 110, PollOutcome.ready 121] [])
      (main [⟨'c', str "YN"⟩]
        (tty [PollOutcome.ready 120, PollOutcome.ready 110, PollOutcome.ready 121] [])).2 2
      (by decide) (KeyInOpt_lt_of_length _ (by decide)) (by decide)).1,
   (main_exit_status [⟨'c', str "YN"⟩] { COpt.new with s_choices := str "YN" }
      (tty [PollOutcome.ready 120, PollOutcome.ready 110, PollOutcome.ready 121] [])
      (main [⟨'c', str "YN"⟩]
        (tty [PollOutcome.ready 120, PollOutcome.ready 110, PollOutcome.ready 121] [])).2 2
      (by decide) (KeyInOpt_lt_of_length _ (by decide)) (by decide)).2.2.1 rfl (by decide) rfl rfl⟩

/-! ## A run on an input that is not a terminal -/

/-- C9, amended. For every configuration `COpt::Analize` accepts with help not requested, if
standard input is not an interactive terminal (`isatty` or `tcgetattr` fails in
`CKey::Initialise`) then `main` never changes the terminal configuration. It returns 255 when no
timeout is configured, and with a timeout when the first test of the loop finds time left, as it
does when the time elapsed then is below the timeout: `kbHit` is called. When the first test
finds the time used up, `kbHit` is not called and `main` returns what it returns for the default
character: `KeyInOpt(d) + 1` when `KeyInOpt(d)` is below 255, and `KeyInOpt(d)` otherwise. -/
theorem not_a_terminal_exit (args : List GetoptItem) (o : COpt) (s : Sys)
    (h : COpt.new.Analize args = (true, o)) (hh : o.b_showHelp = false)
    (hn : s.isatty = false ∨ s.tcgetattrOk = false) :
    (main args s).2.term = s.term ∧
    (∀ t, Effect.tcsetattr t ∈ (main args s).2.log → Effect.tcsetattr t ∈ s.log) ∧
    (o.i_timeout < 0 → (main args s).1 = some 255) ∧
    (∀ (t0 t1 : Nat) (cl : List Nat), 0 ≤ o.i_timeout → s.clock = t0 :: t1 :: cl → t0 ≤ t1 →
      ((t1 - t0 : Nat) : Int) < o.i_timeout * 1000 → (main args s).1 = some 255) ∧
    (∀ (t0 t1 : Nat) (cl : List Nat), 0 ≤ o.i_timeout → s.clock = t0 :: t1 :: cl →
      (¬ Expired (o.i_timeout * 1000) t0 t1 → (main args s).1 = some 255) ∧
      (Expired (o.i_timeout * 1000) t0 t1 →
        0 ≤ o.KeyInOpt o.c_default ∧
        (main args s).1 = some (if o.KeyInOpt o.c_default < 255 then o.KeyInOpt o.c_default + 1
          else o.KeyInOpt o.c_default) ∧
        kbHitCalls (main args s).2.log = kbHitCalls s.log)) := by
  obtain ⟨_, hr, hdef, hmatch⟩ := Analize_accept args o h
  have hd : 0 ≤ o.i_timeout → 0 ≤ o.KeyInOpt o.c_default := by
    intro ht
    obtain ⟨hal, hex⟩ := hmatch (hdef ht)
    obtain ⟨i, hi, _⟩ := KeyInOpt_of_match o o.c_default hal hex
    rw [hi]; omega
  have hsame := run_notty_sameTerminal o s hn hd
  have hnT := toInt32_timeout o.i_timeout hr.1 hr.2
  have hlive : ∀ (t0 t1 : Nat) (cl : List Nat), 0 ≤ o.i_timeout → s.clock = t0 :: t1 :: cl →
      ¬ Expired (o.i_timeout * 1000) t0 t1 → (run o s).1 = some 255 := by
    intro t0 t1 cl ht hcl hexp
    have hnt : ¬ o.i_timeout < 0 := by omega
    have hc2 : (o.ShowPrompt s).clock = t0 :: t1 :: cl := hcl
    unfold run
    simp only [hnt, if_false, hc2, hnT]
    rw [(loopTimeout_first_notty o t0 t1 (o.i_timeout * 1000) (t1 :: cl).length
      { o.ShowPrompt s with clock := t1 :: cl } cl hn (hd ht) rfl).2 hexp]
    simp only []
    rw [finish_error]
  rw [main_accept args s o h hh]
  refine ⟨hsame.1, hsame.2, ?_, ?_, ?_⟩
  · intro ht
    unfold run
    simp only [ht, if_true]
    rw [loopNoTimeout_notty o _ (o.ShowPrompt s) hn]
    simp only []
    rw [finish_error]
  · intro t0 t1 cl ht hcl h01 hlt
    exact hlive t0 t1 cl ht hcl (not_expired_of_elapsed o.i_timeout t0 t1 hr.2 h01 hlt)
  · intro t0 t1 cl ht hcl
    refine ⟨hlive t0 t1 cl ht hcl, ?_⟩
    intro hexp
    have hnt : ¬ o.i_timeout < 0 := by omega
    have hc2 : (o.ShowPrompt s).clock = t0 :: t1 :: cl := hcl
    have hrun : run o s = finish o (o.KeyInOpt o.c_default) { o.ShowPrompt s with clock := cl } := by
      unfold run
      simp only [hnt, if_false, hc2, hnT]
      rw [(loopTimeout_first_notty o t0 t1 (o.i_timeout * 1000) (t1 :: cl).length
        { o.ShowPrompt s with clock := t1 :: cl } cl hn (hd ht) rfl).1 hexp]
    rw [hrun, finish_nonneg o _ _ (hd ht)]
    refine ⟨hd ht, rfl, ?_⟩
    simp only []
    split
    · rw [kbHitCalls_cleanup]
      exact kbHitCalls_prompt o s
    · exact kbHitCalls_prompt o s

theorem not_a_terminal_exit_witness :
    (main [⟨'c', str "YNC"⟩, ⟨'d', str "C"⟩, ⟨'t', str "3"⟩]
        { tty [] [10, 12] with isatty := false }).2.term = (tty [] []).term ∧
    (main [⟨'c', str "YNC"⟩, ⟨'d', str "C"⟩, ⟨'t', str "3"⟩]
        { tty [] [10, 12] with isatty := false }).1 = some 255 :=
  ⟨(not_a_terminal_exit [⟨'c', str "YNC"⟩, ⟨'d', str "C"⟩, ⟨'t', str "3"⟩]
      { COpt.new with s_choices := str "YNC", c_default := 67, i_timeout := 3 }
      { tty [] [10, 12] with isatty := false } (by decide) rfl (Or.inl rfl)).1,
   (not_a_terminal_exit [⟨'c', str "YNC"⟩, ⟨'d', str "C"⟩, ⟨'t', str "3"⟩]
      { COpt.new with s_choices := str "YNC", c_default := 67, i_timeout := 3 }
      { tty [] [10, 12] with isatty := false } (by decide) rfl (Or.inl rfl)).2.2.2.1 10 12 []
      (by decide) rfl (by decide) (by decide)⟩

end Choose
